import Mathlib

/-!
Verification of the libpafe-rs FeliCa protocol core against its
natural-language specification.

Shallow embedding conventions:
- Rust `u8` / `u16` / `usize` values are modelled as `Nat`; wrapping
  arithmetic is made explicit with `% 256`.
- Rust byte slices (`&[u8]`) and `Vec<u8>` are modelled as `List Nat`.
- Fallible functions (`Result<T>`) are modelled as `Except Error T`;
  code that could panic on out-of-bounds indexing is modelled in
  `Except Fault T` where `Fault` distinguishes a returned error from a
  panic, and each raw slice-index site is a guarded read that yields
  `Fault.panic` when out of bounds.
-/

namespace Libpafe

/-! ## Checksums (src/protocol/checksum.rs) -/

/-- LCS: `0u8.wrapping_sub(len)` for a `u8` length. -/
def lcs (len : Nat) : Nat := (256 - len % 256) % 256

/-- The wrapping byte sum used by `dcs`: `fold(0u8, wrapping_add)`. -/
def sum8 (payload : List Nat) : Nat :=
  payload.foldl (fun acc b => (acc + b) % 256) 0

/-- DCS: `0u8.wrapping_sub(sum(payload))`. -/
def dcs (payload : List Nat) : Nat := (256 - sum8 payload) % 256

/-! ## Error type (src/error.rs).
The Rust `Error::FrameFormat` carries a free-form `String`; only two
messages occur in the verified code, so the message is modelled as an
enumeration of them. -/

inductive FrameMsg where
  | invalidPreamble
  | invalidPostamble
deriving DecidableEq

inductive Error where
  | DeviceNotFound
  | InvalidLength (expected actual : Nat)
  | FelicaStatus (status1 status2 : Nat)
  | FelicaBlockStatus (index status1 status2 : Nat)
  | ChecksumMismatch (expected actual : Nat)
  | FrameFormat (msg : FrameMsg)
  | UnexpectedResponse (expected actual : Nat)
  | PollingFailed
  | Timeout
deriving DecidableEq

/-! ## Wire frame codec (src/protocol/frame.rs) -/

namespace Frame

/-- `Frame::encode`: preamble, length, LCS, payload, DCS, postamble. -/
def encode (payload : List Nat) : Except Error (List Nat) :=
  if payload.length > 255 then
    .error (.InvalidLength 255 payload.length)
  else
    .ok ([0, 0, 255] ++ [payload.length] ++ [lcs payload.length] ++
         payload ++ [dcs payload] ++ [0])

/-- `Frame::decode`: validate preamble, LCS, total length, DCS and
postamble, in that order, and return the payload.  The Rust locals
`len = frame[3]`, `lcs_actual = frame[4]` and
`payload = frame[5..5+len]` are inlined as `frame.getD` / `drop`+`take`
expressions. -/
def decode (frame : List Nat) : Except Error (List Nat) :=
  if frame.length < 7 then
    .error (.InvalidLength 7 frame.length)
  else if frame.getD 0 0 ≠ 0 ∨ frame.getD 1 0 ≠ 0 ∨ frame.getD 2 0 ≠ 255 then
    .error (.FrameFormat .invalidPreamble)
  else if frame.getD 4 0 ≠ lcs (frame.getD 3 0) then
    .error (.ChecksumMismatch (lcs (frame.getD 3 0)) (frame.getD 4 0))
  else if frame.length ≠ 7 + frame.getD 3 0 then
    .error (.InvalidLength (7 + frame.getD 3 0) frame.length)
  else if frame.getD (5 + frame.getD 3 0) 0 ≠
      dcs ((frame.drop 5).take (frame.getD 3 0)) then
    .error (.ChecksumMismatch (dcs ((frame.drop 5).take (frame.getD 3 0)))
      (frame.getD (5 + frame.getD 3 0) 0))
  else if frame.getD (5 + frame.getD 3 0 + 1) 0 ≠ 0 then
    .error (.FrameFormat .invalidPostamble)
  else
    .ok ((frame.drop 5).take (frame.getD 3 0))

end Frame

/-! ## Basic list lemmas used throughout -/

theorem getD_append_left (l₁ l₂ : List Nat) (n : Nat) (h : n < l₁.length) :
    (l₁ ++ l₂).getD n 0 = l₁.getD n 0 := by
  induction l₁ generalizing n with
  | nil => simp at h
  | cons a t ih =>
    cases n with
    | zero => rfl
    | succ m =>
      simp only [List.cons_append, List.getD_cons_succ]
      exact ih m (by simpa using h)

theorem getD_append_right (l₁ l₂ : List Nat) (n : Nat) (h : l₁.length ≤ n) :
    (l₁ ++ l₂).getD n 0 = l₂.getD (n - l₁.length) 0 := by
  induction l₁ generalizing n with
  | nil => simp
  | cons a t ih =>
    cases n with
    | zero => simp at h
    | succ m =>
      simp only [List.cons_append, List.getD_cons_succ, List.length_cons]
      rw [ih m (by simpa using h)]
      congr 1
      omega

theorem take_append_length (l₁ l₂ : List Nat) : (l₁ ++ l₂).take l₁.length = l₁ := by
  simp [List.take_append_eq_append_take]

/-- Decoding of a frame with the canonical shape: the preamble, length
and LCS checks pass, leaving the DCS and postamble checks. -/
theorem decode_shape (n : Nat) (t : List Nat) (ht : t.length = n + 2) :
    Frame.decode (0 :: 0 :: 255 :: n :: lcs n :: t) =
      (if t.getD n 0 ≠ dcs (t.take n) then
        .error (.ChecksumMismatch (dcs (t.take n)) (t.getD n 0))
      else if t.getD (n + 1) 0 ≠ 0 then
        .error (.FrameFormat .invalidPostamble)
      else
        .ok (t.take n)) := by
  have hlen : (0 :: 0 :: 255 :: n :: lcs n :: t).length = 7 + n := by
    simp [ht]; omega
  have e0 : (0 :: 0 :: 255 :: n :: lcs n :: t).getD 0 0 = 0 := rfl
  have e1 : (0 :: 0 :: 255 :: n :: lcs n :: t).getD 1 0 = 0 := rfl
  have e2 : (0 :: 0 :: 255 :: n :: lcs n :: t).getD 2 0 = 255 := rfl
  have e3 : (0 :: 0 :: 255 :: n :: lcs n :: t).getD 3 0 = n := rfl
  have e4 : (0 :: 0 :: 255 :: n :: lcs n :: t).getD 4 0 = lcs n := rfl
  have hdrop : (0 :: 0 :: 255 :: n :: lcs n :: t).drop 5 = t := rfl
  have e5 : (0 :: 0 :: 255 :: n :: lcs n :: t).getD (5 + n) 0 = t.getD n 0 := by
    show (([0, 0, 255, n, lcs n] : List Nat) ++ t).getD (5 + n) 0 = t.getD n 0
    rw [getD_append_right _ _ _ (by show (5 : Nat) ≤ 5 + n; omega)]
    congr 1
    show 5 + n - 5 = n
    omega
  have e6 : (0 :: 0 :: 255 :: n :: lcs n :: t).getD (5 + n + 1) 0 = t.getD (n + 1) 0 := by
    show (([0, 0, 255, n, lcs n] : List Nat) ++ t).getD (5 + n + 1) 0 = t.getD (n + 1) 0
    rw [getD_append_right _ _ _ (by show (5 : Nat) ≤ 5 + n + 1; omega)]
    congr 1
    show 5 + n + 1 - 5 = n + 1
    omega
  unfold Frame.decode
  simp only [e0, e1, e2, e3, e4, e5, e6, hlen, hdrop]
  rw [if_neg (by omega), if_neg (by simp), if_neg (by simp), if_neg (by omega)]

/-- Successful encoding produces the canonical frame shape. -/
theorem encode_ok_shape (p f : List Nat) (h : Frame.encode p = .ok f) :
    p.length ≤ 255 ∧
    f = 0 :: 0 :: 255 :: p.length :: lcs p.length :: (p ++ [dcs p, 0]) := by
  unfold Frame.encode at h
  split at h
  · exact absurd h (by simp)
  · refine ⟨by omega, ?_⟩
    simp only [Except.ok.injEq] at h
    simp [← h]

/-- An encoded frame always decodes back to the payload. -/
theorem decode_encode (p f : List Nat) (h : Frame.encode p = .ok f) :
    Frame.decode f = .ok p := by
  obtain ⟨hle, hshape⟩ := encode_ok_shape p f h
  subst hshape
  rw [decode_shape p.length (p ++ [dcs p, 0]) (by simp)]
  have htake : (p ++ [dcs p, 0]).take p.length = p := take_append_length p _
  have hg1 : (p ++ [dcs p, 0]).getD p.length 0 = dcs p := by
    rw [getD_append_right _ _ _ (by omega)]
    simp
  have hg2 : (p ++ [dcs p, 0]).getD (p.length + 1) 0 = 0 := by
    rw [getD_append_right _ _ _ (by omega)]
    simp
  rw [htake, hg1, hg2]
  simp

/-- C1: for every payload of length at most 255, `Frame::encode`
succeeds and `Frame::decode` of the result returns exactly the payload;
for every longer payload, `Frame::encode` fails with a length error. -/
theorem frame_encode_decode_roundtrip (p : List Nat) :
    (p.length ≤ 255 →
      ∃ f, Frame.encode p = .ok f ∧ Frame.decode f = .ok p) ∧
    (p.length > 255 →
      Frame.encode p = .error (.InvalidLength 255 p.length)) := by
  constructor
  · intro hle
    refine ⟨0 :: 0 :: 255 :: p.length :: lcs p.length :: (p ++ [dcs p, 0]), ?_, ?_⟩
    · unfold Frame.encode
      rw [if_neg (by omega)]
      simp
    · apply decode_encode
      unfold Frame.encode
      rw [if_neg (by omega)]
      simp
  · intro hgt
    unfold Frame.encode
    rw [if_pos (by omega)]

/-- Witness for C1 at the concrete payload `[0x06, 0x00, 0x12, 0x34]`. -/
theorem frame_encode_decode_roundtrip_witness :
    ∃ f, Frame.encode [6, 0, 18, 52] = .ok f ∧
      Frame.decode f = .ok [6, 0, 18, 52] :=
  (frame_encode_decode_roundtrip [6, 0, 18, 52]).1 (by decide)

/-! ## Lemmas for tamper detection (C2) -/

theorem set_append_left (l₁ l₂ : List Nat) (j v : Nat) (h : j < l₁.length) :
    (l₁ ++ l₂).set j v = (l₁.set j v) ++ l₂ := by
  induction l₁ generalizing j with
  | nil => simp at h
  | cons a t ih =>
    cases j with
    | zero => rfl
    | succ m =>
      simp only [List.cons_append, List.set_cons_succ]
      rw [ih m (by simpa using h)]

theorem set_append_right (l₁ l₂ : List Nat) (j v : Nat) (h : l₁.length ≤ j) :
    (l₁ ++ l₂).set j v = l₁ ++ (l₂.set (j - l₁.length) v) := by
  induction l₁ generalizing j with
  | nil => simp
  | cons a t ih =>
    cases j with
    | zero => simp at h
    | succ m =>
      simp only [List.cons_append, List.set_cons_succ, List.length_cons]
      rw [ih m (by simpa using h)]
      have hx : m + 1 - (t.length + 1) = m - t.length := by omega
      rw [hx]

theorem getD_mem (l : List Nat) (j : Nat) (h : j < l.length) : l.getD j 0 ∈ l := by
  induction l generalizing j with
  | nil => simp at h
  | cons a t ih =>
    cases j with
    | zero => simp
    | succ m =>
      simp only [List.getD_cons_succ]
      exact List.mem_cons_of_mem a (ih m (by simpa using h))

theorem sum_set_add (p : List Nat) (j v : Nat) (hj : j < p.length) :
    (p.set j v).sum + p.getD j 0 = p.sum + v := by
  induction p generalizing j with
  | nil => simp at hj
  | cons a t ih =>
    cases j with
    | zero => simp [List.sum_cons]; omega
    | succ m =>
      simp only [List.set_cons_succ, List.sum_cons, List.getD_cons_succ]
      have := ih m (by simpa using hj)
      omega

theorem foldl_mod_eq (l : List Nat) : ∀ a : Nat, a < 256 →
    l.foldl (fun acc b => (acc + b) % 256) a = (a + l.sum) % 256 := by
  induction l with
  | nil =>
    intro a ha
    simp [Nat.mod_eq_of_lt ha]
  | cons x t ih =>
    intro a ha
    simp only [List.foldl_cons, List.sum_cons]
    rw [ih _ (Nat.mod_lt _ (by norm_num)), Nat.mod_add_mod]
    congr 1
    omega

theorem sum8_eq_sum_mod (l : List Nat) : sum8 l = l.sum % 256 := by
  unfold sum8
  rw [foldl_mod_eq l 0 (by norm_num)]
  simp

theorem sum8_lt (l : List Nat) : sum8 l < 256 := by
  rw [sum8_eq_sum_mod]
  exact Nat.mod_lt _ (by norm_num)

theorem lcs_inj (a b : Nat) (ha : a < 256) (hb : b < 256) (h : lcs a = lcs b) :
    a = b := by
  unfold lcs at h
  rw [Nat.mod_eq_of_lt ha, Nat.mod_eq_of_lt hb] at h
  omega

theorem dcs_set_ne (p : List Nat) (j v : Nat) (hj : j < p.length)
    (hp : ∀ b ∈ p, b < 256) (hv : v < 256) (hne : v ≠ p.getD j 0) :
    dcs (p.set j v) ≠ dcs p := by
  intro h
  unfold dcs at h
  have b1 := sum8_lt (p.set j v)
  have b2 := sum8_lt p
  have hsum : sum8 (p.set j v) = sum8 p := by omega
  rw [sum8_eq_sum_mod, sum8_eq_sum_mod] at hsum
  have hadd := sum_set_add p j v hj
  have hd : p.getD j 0 < 256 := hp _ (getD_mem p j hj)
  have hmod : (p.sum + v) % 256 = (p.sum + p.getD j 0) % 256 := by
    calc (p.sum + v) % 256 = ((p.set j v).sum + p.getD j 0) % 256 := by rw [hadd]
    _ = (p.sum + p.getD j 0) % 256 := by
        rw [Nat.add_mod, hsum, ← Nat.add_mod]
  have : v = p.getD j 0 := by omega
  exact hne this

theorem decode_preamble_fail (g : List Nat) (hlen : 7 ≤ g.length)
    (h : g.getD 0 0 ≠ 0 ∨ g.getD 1 0 ≠ 0 ∨ g.getD 2 0 ≠ 255) :
    Frame.decode g = .error (.FrameFormat .invalidPreamble) := by
  unfold Frame.decode
  rw [if_neg (by omega), if_pos h]

theorem decode_lcs_fail (g : List Nat) (hlen : 7 ≤ g.length)
    (h0 : g.getD 0 0 = 0) (h1 : g.getD 1 0 = 0) (h2 : g.getD 2 0 = 255)
    (h : g.getD 4 0 ≠ lcs (g.getD 3 0)) :
    Frame.decode g = .error (.ChecksumMismatch (lcs (g.getD 3 0)) (g.getD 4 0)) := by
  unfold Frame.decode
  rw [if_neg (by omega), if_neg (by simp only [h0, h1, h2]; simp), if_pos h]

theorem getD_cons_add5 (a b c d e : Nat) (t : List Nat) (j : Nat) :
    (a :: b :: c :: d :: e :: t).getD (j + 5) 0 = t.getD j 0 := rfl

theorem set_cons_add5 (a b c d e : Nat) (t : List Nat) (j v : Nat) :
    (a :: b :: c :: d :: e :: t).set (j + 5) v =
      a :: b :: c :: d :: e :: (t.set j v) := rfl

/-- C2: for every byte payload of length at most 255, corrupting any
single byte of the encoded frame makes `Frame::decode` fail with a
`ChecksumMismatch` or `FrameFormat` error; it never returns a payload,
in particular never payload bytes different from the original. -/
theorem frame_tamper_detected (p : List Nat) (hp : ∀ b ∈ p, b < 256)
    (f : List Nat) (hf : Frame.encode p = .ok f)
    (i v : Nat) (hi : i < f.length) (hv : v < 256) (hne : v ≠ f.getD i 0) :
    ((∃ e a, Frame.decode (f.set i v) = .error (.ChecksumMismatch e a)) ∨
      (∃ m, Frame.decode (f.set i v) = .error (.FrameFormat m))) ∧
    (∀ q, Frame.decode (f.set i v) ≠ .ok q) := by
  obtain ⟨hle, hshape⟩ := encode_ok_shape p f hf
  subst hshape
  have hflen :
      (0 :: 0 :: 255 :: p.length :: lcs p.length :: (p ++ [dcs p, 0])).length =
        7 + p.length := by
    simp
    omega
  rw [hflen] at hi
  have main :
      (∃ e a, Frame.decode
          ((0 :: 0 :: 255 :: p.length :: lcs p.length :: (p ++ [dcs p, 0])).set i v) =
            .error (.ChecksumMismatch e a)) ∨
      (∃ m, Frame.decode
          ((0 :: 0 :: 255 :: p.length :: lcs p.length :: (p ++ [dcs p, 0])).set i v) =
            .error (.FrameFormat m)) := by
    rcases Nat.lt_or_ge i 5 with h5 | h5
    · interval_cases i
      · -- preamble byte 0
        right
        refine ⟨_, decode_preamble_fail _ (by simp) (Or.inl ?_)⟩
        exact hne
      · -- preamble byte 1
        right
        refine ⟨_, decode_preamble_fail _ (by simp) (Or.inr (Or.inl ?_))⟩
        exact hne
      · -- preamble byte 2
        right
        refine ⟨_, decode_preamble_fail _ (by simp) (Or.inr (Or.inr ?_))⟩
        exact hne
      · -- length byte
        left
        refine ⟨_, _, decode_lcs_fail _ (by simp) rfl rfl rfl ?_⟩
        show lcs p.length ≠ lcs v
        intro heq
        exact hne (lcs_inj v p.length hv (by omega) heq.symm)
      · -- LCS byte
        left
        refine ⟨_, _, decode_lcs_fail _ (by simp) rfl rfl rfl ?_⟩
        show v ≠ lcs p.length
        exact hne
    · obtain ⟨j, rfl⟩ : ∃ j, i = j + 5 := ⟨i - 5, by omega⟩
      have hj2 : j < p.length + 2 := by omega
      rw [set_cons_add5]
      rw [decode_shape p.length _ (by rw [List.length_set]; simp)]
      rcases Nat.lt_trichotomy j p.length with hj | hj | hj
      · -- payload byte: DCS no longer matches
        have hne' : v ≠ p.getD j 0 := by
          have hg : (0 :: 0 :: 255 :: p.length :: lcs p.length ::
              (p ++ [dcs p, 0])).getD (j + 5) 0 = p.getD j 0 := by
            rw [getD_cons_add5]
            exact getD_append_left _ _ _ hj
          rwa [hg] at hne
        have hset : (p ++ [dcs p, 0]).set j v = (p.set j v) ++ [dcs p, 0] :=
          set_append_left _ _ _ _ (by omega)
        have htake : ((p.set j v) ++ [dcs p, 0]).take p.length = p.set j v := by
          have h1 := take_append_length (p.set j v) [dcs p, 0]
          rwa [List.length_set] at h1
        have hgn : ((p.set j v) ++ [dcs p, 0]).getD p.length 0 = dcs p := by
          rw [getD_append_right _ _ _ (by rw [List.length_set])]
          rw [List.length_set]
          simp
        rw [hset, htake, hgn]
        rw [if_pos (Ne.symm (dcs_set_ne p j v hj hp hv hne'))]
        exact Or.inl ⟨_, _, rfl⟩
      · -- DCS byte
        subst hj
        have hne' : v ≠ dcs p := by
          have hg : (0 :: 0 :: 255 :: p.length :: lcs p.length ::
              (p ++ [dcs p, 0])).getD (p.length + 5) 0 = dcs p := by
            rw [getD_cons_add5]
            rw [getD_append_right _ _ _ (le_refl _)]
            simp
          rwa [hg] at hne
        have hset : (p ++ [dcs p, 0]).set p.length v = p ++ [v, 0] := by
          rw [set_append_right _ _ _ _ (le_refl _)]
          simp
        have htake : (p ++ [v, 0]).take p.length = p := take_append_length _ _
        have hgn : (p ++ [v, 0]).getD p.length 0 = v := by
          rw [getD_append_right _ _ _ (le_refl _)]
          simp
        rw [hset, htake, hgn, if_pos hne']
        exact Or.inl ⟨_, _, rfl⟩
      · -- postamble byte
        have hj1 : j = p.length + 1 := by omega
        subst hj1
        have hne' : v ≠ 0 := by
          have hg : (0 :: 0 :: 255 :: p.length :: lcs p.length ::
              (p ++ [dcs p, 0])).getD (p.length + 1 + 5) 0 = 0 := by
            rw [getD_cons_add5]
            rw [getD_append_right _ _ _ (by omega)]
            have hx : p.length + 1 - p.length = 1 := by omega
            rw [hx]
            simp
          rwa [hg] at hne
        have hset : (p ++ [dcs p, 0]).set (p.length + 1) v = p ++ [dcs p, v] := by
          rw [set_append_right _ _ _ _ (by omega)]
          have hx : p.length + 1 - p.length = 1 := by omega
          rw [hx]
          simp
        have htake : (p ++ [dcs p, v]).take p.length = p := take_append_length _ _
        have hgn : (p ++ [dcs p, v]).getD p.length 0 = dcs p := by
          rw [getD_append_right _ _ _ (le_refl _)]
          simp
        have hgn1 : (p ++ [dcs p, v]).getD (p.length + 1) 0 = v := by
          rw [getD_append_right _ _ _ (by omega)]
          have hx : p.length + 1 - p.length = 1 := by omega
          rw [hx]
          simp
        rw [hset, htake, hgn, hgn1, if_neg (by simp), if_pos hne']
        exact Or.inr ⟨_, rfl⟩
  refine ⟨main, ?_⟩
  intro q hq
  rcases main with ⟨e, a, hm⟩ | ⟨m, hm⟩ <;> rw [hm] at hq <;> exact Except.noConfusion hq

/-- Witness for C2: corrupting the LCS byte of the encoded frame for
payload `[1, 2]` is detected. -/
theorem frame_tamper_detected_witness :
    ((∃ e a, Frame.decode (([0, 0, 255, 2, 254, 1, 2, 253, 0] : List Nat).set 4 0) =
        .error (.ChecksumMismatch e a)) ∨
      (∃ m, Frame.decode (([0, 0, 255, 2, 254, 1, 2, 253, 0] : List Nat).set 4 0) =
        .error (.FrameFormat m))) ∧
    (∀ q, Frame.decode (([0, 0, 255, 2, 254, 1, 2, 253, 0] : List Nat).set 4 0) ≠ .ok q) :=
  frame_tamper_detected [1, 2] (by decide) [0, 0, 255, 2, 254, 1, 2, 253, 0]
    (by rfl) 4 0 (by decide) (by decide) (by decide)


/-! ## Parser primitives (src/protocol/parser.rs)

Decoders run in `Except Fault`: `Fault.err e` models a returned
`Err(e)`, `Fault.panic` models a Rust panic.  Every raw slice index
`data[i]` is modelled by `readAt`, which panics when out of bounds; the
bounds checks (`ensure_len`) that precede each read in the source are
what the totality theorem relies on. -/

inductive Fault where
  | err (e : Error)
  | panic
deriving DecidableEq

/-- `ensure_len`: fail with a length error when fewer than `min` bytes. -/
def ensureLen (data : List Nat) (min : Nat) : Except Fault Unit :=
  if data.length < min then .error (.err (.InvalidLength min data.length))
  else .ok ()

/-- A raw slice index `data[i]`: panics when out of bounds. -/
def readAt (data : List Nat) (i : Nat) : Except Fault Nat :=
  if i < data.length then .ok (data.getD i 0) else .error .panic

/-- `byte_at`: `ensure_len(data, idx + 1)` then `data[idx]`. -/
def byteAt (data : List Nat) (i : Nat) : Except Fault Nat :=
  match ensureLen data (i + 1) with
  | .error e => .error e
  | .ok _ => readAt data i

/-- `le_u16_at`: `ensure_len(data, idx + 2)` then
`u16::from_le_bytes([data[idx], data[idx + 1]])`. -/
def leU16At (data : List Nat) (i : Nat) : Except Fault Nat :=
  match ensureLen data (i + 2) with
  | .error e => .error e
  | .ok _ =>
    match readAt data i with
    | .error e => .error e
    | .ok lo =>
      match readAt data (i + 1) with
      | .error e => .error e
      | .ok hi => .ok (lo + 256 * hi)

/-- `slice_at`: `ensure_len(data, idx + len)` then `&data[idx..idx+len]`
(the raw range index panics when out of bounds). -/
def sliceAt (data : List Nat) (idx len : Nat) : Except Fault (List Nat) :=
  match ensureLen data (idx + len) with
  | .error e => .error e
  | .ok _ =>
    if idx + len ≤ data.length then .ok ((data.drop idx).take len)
    else .error .panic

/-- `Idm::try_from` / `Pmm::try_from` (src/types.rs): reject slices that
are not exactly 8 bytes. -/
def idmTryFrom (bytes : List Nat) : Except Fault (List Nat) :=
  if bytes.length ≠ 8 then .error (.err (.InvalidLength 8 bytes.length))
  else .ok bytes

/-- `idm_at`: 8-byte slice at `start`, converted via `Idm::try_from`. -/
def idmAt (data : List Nat) (start : Nat) : Except Fault (List Nat) :=
  match sliceAt data start 8 with
  | .error e => .error e
  | .ok s => idmTryFrom s

/-- `pmm_at`: parsing identical to `idm_at`. -/
def pmmAt (data : List Nat) (start : Nat) : Except Fault (List Nat) :=
  match sliceAt data start 8 with
  | .error e => .error e
  | .ok s => idmTryFrom s

/-- `expect_response_code`: the first byte must equal `expected`. -/
def expectResponseCode (data : List Nat) (expected : Nat) : Except Fault Unit :=
  match byteAt data 0 with
  | .error e => .error e
  | .ok actual =>
    if actual ≠ expected then .error (.err (.UnexpectedResponse expected actual))
    else .ok ()

/-! ## Response decoders (src/protocol/responses/) -/

inductive Response where
  | Polling (idm pmm : List Nat) (systemCode : Nat)
  | ReadWithoutEncryption (idm : List Nat) (status : Nat × Nat)
      (blocks : List (List Nat))
  | WriteWithoutEncryption (idm : List Nat) (statuses : List (Nat × Nat))
  | RequestService (idm : List Nat) (versions : List Nat)
  | RequestResponse (idm : List Nat) (mode : Nat)
  | RequestSystemCode (idm : List Nat) (systemCodes : List Nat)
  | SearchServiceCode (idm : List Nat) (areaOrServiceCode : Option Nat)
deriving DecidableEq

/-- `decode_polling` (responses/polling.rs):
`response_code(1) + idm(8) + pmm(8) + system_code(2)`. -/
def decode_polling (data : List Nat) :
    Except Fault (List Nat × List Nat × Nat) :=
  match ensureLen data 19 with
  | .error e => .error e
  | .ok _ =>
  match expectResponseCode data 1 with
  | .error e => .error e
  | .ok _ =>
  match idmAt data 1 with
  | .error e => .error e
  | .ok idm =>
  match pmmAt data 9 with
  | .error e => .error e
  | .ok pmm =>
  match leU16At data 17 with
  | .error e => .error e
  | .ok sys => .ok (idm, pmm, sys)

/-- The block-reading loop of `decode_read`: `count` iterations starting
at loop index `i`, each taking the 16-byte slice at `12 + i*16`. -/
def readBlocks (data : List Nat) : Nat → Nat → Except Fault (List (List Nat))
  | 0, _ => .ok []
  | c + 1, i =>
    match sliceAt data (12 + i * 16) 16 with
    | .error e => .error e
    | .ok b =>
      match readBlocks data c (i + 1) with
      | .error e => .error e
      | .ok rest => .ok (b :: rest)

/-- `decode_read` (responses/read.rs).  The Rust `checked_add` /
`checked_mul` guards cannot fail for a `u8` block count and are modelled
by plain `Nat` arithmetic. -/
def decode_read (data : List Nat) :
    Except Fault (List Nat × (Nat × Nat) × List (List Nat)) :=
  match ensureLen data 12 with
  | .error e => .error e
  | .ok _ =>
  match expectResponseCode data 7 with
  | .error e => .error e
  | .ok _ =>
  match idmAt data 1 with
  | .error e => .error e
  | .ok idm =>
  match byteAt data 9 with
  | .error e => .error e
  | .ok s1 =>
  match byteAt data 10 with
  | .error e => .error e
  | .ok s2 =>
  if s1 ≠ 0 ∨ s2 ≠ 0 then .error (.err (.FelicaStatus s1 s2))
  else
  match byteAt data 11 with
  | .error e => .error e
  | .ok bc =>
  match ensureLen data (12 + bc * 16) with
  | .error e => .error e
  | .ok _ =>
  match readBlocks data bc 0 with
  | .error e => .error e
  | .ok blocks => .ok (idm, (s1, s2), blocks)

/-- The little-endian `u16` reading loop shared by `decode_request_service`
and `decode_request_system_code`: `count` values at `base + i*2`. -/
def readU16s (data : List Nat) (base : Nat) : Nat → Nat → Except Fault (List Nat)
  | 0, _ => .ok []
  | c + 1, i =>
    match leU16At data (base + i * 2) with
    | .error e => .error e
    | .ok v =>
      match readU16s data base c (i + 1) with
      | .error e => .error e
      | .ok rest => .ok (v :: rest)

/-- `decode_request_service` (responses/service.rs). -/
def decode_request_service (data : List Nat) :
    Except Fault (List Nat × List Nat) :=
  match ensureLen data 10 with
  | .error e => .error e
  | .ok _ =>
  match expectResponseCode data 3 with
  | .error e => .error e
  | .ok _ =>
  match idmAt data 1 with
  | .error e => .error e
  | .ok idm =>
  match byteAt data 9 with
  | .error e => .error e
  | .ok cnt =>
  match ensureLen data (10 + cnt * 2) with
  | .error e => .error e
  | .ok _ =>
  match readU16s data 10 cnt 0 with
  | .error e => .error e
  | .ok versions => .ok (idm, versions)

/-- `decode_request_response` (responses/service.rs). -/
def decode_request_response (data : List Nat) :
    Except Fault (List Nat × Nat) :=
  match ensureLen data 10 with
  | .error e => .error e
  | .ok _ =>
  match expectResponseCode data 5 with
  | .error e => .error e
  | .ok _ =>
  match idmAt data 1 with
  | .error e => .error e
  | .ok idm =>
  match byteAt data 9 with
  | .error e => .error e
  | .ok mode => .ok (idm, mode)

/-- `decode_request_system_code` (responses/system.rs). -/
def decode_request_system_code (data : List Nat) :
    Except Fault (List Nat × List Nat) :=
  match ensureLen data 10 with
  | .error e => .error e
  | .ok _ =>
  match expectResponseCode data 13 with
  | .error e => .error e
  | .ok _ =>
  match idmAt data 1 with
  | .error e => .error e
  | .ok idm =>
  match byteAt data 9 with
  | .error e => .error e
  | .ok cnt =>
  match ensureLen data (10 + cnt * 2) with
  | .error e => .error e
  | .ok _ =>
  match readU16s data 10 cnt 0 with
  | .error e => .error e
  | .ok codes => .ok (idm, codes)

/-- `decode_search_service_code` (responses/search.rs): a zero
present-flag yields no code; any non-zero flag requires two further
bytes read little-endian. -/
def decode_search_service_code (data : List Nat) :
    Except Fault (List Nat × Option Nat) :=
  match ensureLen data 10 with
  | .error e => .error e
  | .ok _ =>
  match expectResponseCode data 11 with
  | .error e => .error e
  | .ok _ =>
  match idmAt data 1 with
  | .error e => .error e
  | .ok idm =>
  match byteAt data 9 with
  | .error e => .error e
  | .ok flag =>
  if flag = 0 then .ok (idm, none)
  else
  match ensureLen data 12 with
  | .error e => .error e
  | .ok _ =>
  match leU16At data 10 with
  | .error e => .error e
  | .ok code => .ok (idm, some code)

/-- The status-pair reading loop of `decode_write`: `count` pairs at
offsets `9 + i*2`. -/
def readPairs (data : List Nat) : Nat → Nat → Except Fault (List (Nat × Nat))
  | 0, _ => .ok []
  | c + 1, i =>
    match byteAt data (9 + i * 2) with
    | .error e => .error e
    | .ok s1 =>
      match byteAt data (9 + i * 2 + 1) with
      | .error e => .error e
      | .ok s2 =>
        match readPairs data c (i + 1) with
        | .error e => .error e
        | .ok rest => .ok ((s1, s2) :: rest)

/-- The status scan of `decode_write`: the first pair different from
`(0,0)` together with its index. -/
def firstNonZero : List (Nat × Nat) → Nat → Option (Nat × Nat × Nat)
  | [], _ => none
  | (s1, s2) :: rest, i =>
    if s1 ≠ 0 ∨ s2 ≠ 0 then some (i, s1, s2) else firstNonZero rest (i + 1)

/-- `decode_write` (responses/write.rs).  `remaining` is
`data.len().saturating_sub(9)`, which `Nat` subtraction models exactly. -/
def decode_write (data : List Nat) :
    Except Fault (List Nat × List (Nat × Nat)) :=
  match ensureLen data 11 with
  | .error e => .error e
  | .ok _ =>
  match expectResponseCode data 9 with
  | .error e => .error e
  | .ok _ =>
  match idmAt data 1 with
  | .error e => .error e
  | .ok idm =>
  if data.length - 9 < 2 ∨ (data.length - 9) % 2 ≠ 0 then
    .error (.err (.InvalidLength 11 data.length))
  else
  match readPairs data ((data.length - 9) / 2) 0 with
  | .error e => .error e
  | .ok statuses =>
    match firstNonZero statuses 0 with
    | none => .ok (idm, statuses)
    | some (i, s1, s2) =>
      if statuses.length = 1 then .error (.err (.FelicaStatus s1 s2))
      else .error (.err (.FelicaBlockStatus i s1 s2))

/-- `Response::decode` (responses/mod.rs): central non-emptiness and
response-code check (`expected_cmd.wrapping_add(1)`), then dispatch on
the expected command code. -/
def Response.decode (expectedCmd : Nat) (data : List Nat) :
    Except Fault Response :=
  match ensureLen data 1 with
  | .error e => .error e
  | .ok _ =>
  match expectResponseCode data ((expectedCmd + 1) % 256) with
  | .error e => .error e
  | .ok _ =>
  match expectedCmd with
  | 0 =>
    (match decode_polling data with
    | .error e => .error e
    | .ok (idm, pmm, sys) => .ok (.Polling idm pmm sys))
  | 6 =>
    (match decode_read data with
    | .error e => .error e
    | .ok (idm, st, blocks) => .ok (.ReadWithoutEncryption idm st blocks))
  | 8 =>
    (match decode_write data with
    | .error e => .error e
    | .ok (idm, statuses) => .ok (.WriteWithoutEncryption idm statuses))
  | 2 =>
    (match decode_request_service data with
    | .error e => .error e
    | .ok (idm, versions) => .ok (.RequestService idm versions))
  | 4 =>
    (match decode_request_response data with
    | .error e => .error e
    | .ok (idm, mode) => .ok (.RequestResponse idm mode))
  | 12 =>
    (match decode_request_system_code data with
    | .error e => .error e
    | .ok (idm, codes) => .ok (.RequestSystemCode idm codes))
  | 10 =>
    (match decode_search_service_code data with
    | .error e => .error e
    | .ok (idm, code) => .ok (.SearchServiceCode idm code))
  | _ => .error (.err (.UnexpectedResponse (expectedCmd + 1) (data.headD 0)))

/-! ## Characterizations of the parser primitives -/

theorem ensureLen_ok (data : List Nat) (m : Nat) (h : m ≤ data.length) :
    ensureLen data m = .ok () := by
  unfold ensureLen
  rw [if_neg (by omega)]

theorem ensureLen_err (data : List Nat) (m : Nat) (h : data.length < m) :
    ensureLen data m = .error (.err (.InvalidLength m data.length)) := by
  unfold ensureLen
  rw [if_pos h]

theorem readAt_ok (data : List Nat) (i : Nat) (h : i < data.length) :
    readAt data i = .ok (data.getD i 0) := by
  unfold readAt
  rw [if_pos h]

theorem byteAt_ok (data : List Nat) (i : Nat) (h : i < data.length) :
    byteAt data i = .ok (data.getD i 0) := by
  unfold byteAt
  rw [ensureLen_ok data (i + 1) (by omega), readAt_ok data i h]

theorem byteAt_err (data : List Nat) (i : Nat) (h : data.length < i + 1) :
    byteAt data i = .error (.err (.InvalidLength (i + 1) data.length)) := by
  unfold byteAt
  rw [ensureLen_err data (i + 1) h]

theorem leU16At_ok (data : List Nat) (i : Nat) (h : i + 2 ≤ data.length) :
    leU16At data i = .ok (data.getD i 0 + 256 * data.getD (i + 1) 0) := by
  unfold leU16At
  rw [ensureLen_ok data (i + 2) h, readAt_ok data i (by omega),
    readAt_ok data (i + 1) (by omega)]

theorem leU16At_err (data : List Nat) (i : Nat) (h : data.length < i + 2) :
    leU16At data i = .error (.err (.InvalidLength (i + 2) data.length)) := by
  unfold leU16At
  rw [ensureLen_err data (i + 2) h]

theorem sliceAt_ok (data : List Nat) (idx len : Nat) (h : idx + len ≤ data.length) :
    sliceAt data idx len = .ok ((data.drop idx).take len) := by
  unfold sliceAt
  rw [ensureLen_ok data (idx + len) h, if_pos h]

theorem sliceAt_err (data : List Nat) (idx len : Nat) (h : data.length < idx + len) :
    sliceAt data idx len = .error (.err (.InvalidLength (idx + len) data.length)) := by
  unfold sliceAt
  rw [ensureLen_err data (idx + len) h]

theorem idmAt_ok (data : List Nat) (start : Nat) (h : start + 8 ≤ data.length) :
    idmAt data start = .ok ((data.drop start).take 8) := by
  unfold idmAt
  rw [sliceAt_ok data start 8 h]
  show idmTryFrom _ = _
  unfold idmTryFrom
  rw [if_neg (by simp; omega)]

theorem idmAt_err (data : List Nat) (start : Nat) (h : data.length < start + 8) :
    idmAt data start = .error (.err (.InvalidLength (start + 8) data.length)) := by
  unfold idmAt
  rw [sliceAt_err data start 8 h]

theorem pmmAt_ok (data : List Nat) (start : Nat) (h : start + 8 ≤ data.length) :
    pmmAt data start = .ok ((data.drop start).take 8) := by
  unfold pmmAt
  rw [sliceAt_ok data start 8 h]
  show idmTryFrom _ = _
  unfold idmTryFrom
  rw [if_neg (by simp; omega)]

theorem pmmAt_err (data : List Nat) (start : Nat) (h : data.length < start + 8) :
    pmmAt data start = .error (.err (.InvalidLength (start + 8) data.length)) := by
  unfold pmmAt
  rw [sliceAt_err data start 8 h]

theorem expectCode_ok (data : List Nat) (exp : Nat) (h0 : 0 < data.length)
    (h : data.getD 0 0 = exp) : expectResponseCode data exp = .ok () := by
  unfold expectResponseCode
  rw [byteAt_ok data 0 h0]
  show (if data.getD 0 0 ≠ exp then
      Except.error (Fault.err (Error.UnexpectedResponse exp (data.getD 0 0)))
    else Except.ok ()) = Except.ok ()
  rw [if_neg (by rw [h]; simp)]

theorem expectCode_mismatch (data : List Nat) (exp : Nat) (h0 : 0 < data.length)
    (h : data.getD 0 0 ≠ exp) :
    expectResponseCode data exp =
      .error (.err (.UnexpectedResponse exp (data.getD 0 0))) := by
  unfold expectResponseCode
  rw [byteAt_ok data 0 h0]
  show (if data.getD 0 0 ≠ exp then
      Except.error (Fault.err (Error.UnexpectedResponse exp (data.getD 0 0)))
    else Except.ok ()) =
    Except.error (Fault.err (Error.UnexpectedResponse exp (data.getD 0 0)))
  rw [if_pos h]

theorem expectCode_empty (data : List Nat) (exp : Nat) (h0 : data.length = 0) :
    expectResponseCode data exp = .error (.err (.InvalidLength 1 data.length)) := by
  unfold expectResponseCode
  rw [byteAt_err data 0 (by omega), h0]

/-! ## Shape results: every primitive either returns a value or a
returned error, never a panic -/

theorem ensureLen_shape (data : List Nat) (m : Nat) :
    ensureLen data m = .ok () ∨ ∃ e, ensureLen data m = .error (.err e) := by
  by_cases h : data.length < m
  · exact .inr ⟨_, ensureLen_err data m h⟩
  · exact .inl (ensureLen_ok data m (by omega))

theorem byteAt_shape (data : List Nat) (i : Nat) :
    (∃ v, byteAt data i = .ok v) ∨ ∃ e, byteAt data i = .error (.err e) := by
  by_cases h : i < data.length
  · exact .inl ⟨_, byteAt_ok data i h⟩
  · exact .inr ⟨_, byteAt_err data i (by omega)⟩

theorem leU16At_shape (data : List Nat) (i : Nat) :
    (∃ v, leU16At data i = .ok v) ∨ ∃ e, leU16At data i = .error (.err e) := by
  by_cases h : i + 2 ≤ data.length
  · exact .inl ⟨_, leU16At_ok data i h⟩
  · exact .inr ⟨_, leU16At_err data i (by omega)⟩

theorem idmAt_shape (data : List Nat) (start : Nat) :
    (∃ v, idmAt data start = .ok v) ∨ ∃ e, idmAt data start = .error (.err e) := by
  by_cases h : start + 8 ≤ data.length
  · exact .inl ⟨_, idmAt_ok data start h⟩
  · exact .inr ⟨_, idmAt_err data start (by omega)⟩

theorem pmmAt_shape (data : List Nat) (start : Nat) :
    (∃ v, pmmAt data start = .ok v) ∨ ∃ e, pmmAt data start = .error (.err e) := by
  by_cases h : start + 8 ≤ data.length
  · exact .inl ⟨_, pmmAt_ok data start h⟩
  · exact .inr ⟨_, pmmAt_err data start (by omega)⟩

theorem expectCode_shape (data : List Nat) (exp : Nat) :
    expectResponseCode data exp = .ok () ∨
      ∃ e, expectResponseCode data exp = .error (.err e) := by
  rcases Nat.eq_zero_or_pos data.length with h0 | h0
  · exact .inr ⟨_, expectCode_empty data exp h0⟩
  · by_cases h : data.getD 0 0 = exp
    · exact .inl (expectCode_ok data exp h0 h)
    · exact .inr ⟨_, expectCode_mismatch data exp h0 h⟩

theorem readBlocks_shape (data : List Nat) :
    ∀ c i, (∃ v, readBlocks data c i = .ok v) ∨
      ∃ e, readBlocks data c i = .error (.err e) := by
  intro c
  induction c with
  | zero => exact fun i => .inl ⟨[], rfl⟩
  | succ m ih =>
    intro i
    by_cases h : (12 + i * 16) + 16 ≤ data.length
    · rcases ih (i + 1) with ⟨v, hv⟩ | ⟨e, he⟩
      · exact .inl ⟨_, by
          simp only [readBlocks]
          rw [sliceAt_ok data _ 16 h, hv]⟩
      · exact .inr ⟨e, by
          simp only [readBlocks]
          rw [sliceAt_ok data _ 16 h, he]⟩
    · exact .inr ⟨_, by
        simp only [readBlocks]
        rw [sliceAt_err data _ 16 (by omega)]⟩

theorem readU16s_shape (data : List Nat) (base : Nat) :
    ∀ c i, (∃ v, readU16s data base c i = .ok v) ∨
      ∃ e, readU16s data base c i = .error (.err e) := by
  intro c
  induction c with
  | zero => exact fun i => .inl ⟨[], rfl⟩
  | succ m ih =>
    intro i
    rcases leU16At_shape data (base + i * 2) with ⟨v, hv⟩ | ⟨e, he⟩
    · rcases ih (i + 1) with ⟨w, hw⟩ | ⟨e, he⟩
      · exact .inl ⟨_, by
          simp only [readU16s]
          rw [hv, hw]⟩
      · exact .inr ⟨e, by
          simp only [readU16s]
          rw [hv, he]⟩
    · exact .inr ⟨e, by
        simp only [readU16s]
        rw [he]⟩

theorem readPairs_shape (data : List Nat) :
    ∀ c i, (∃ v, readPairs data c i = .ok v) ∨
      ∃ e, readPairs data c i = .error (.err e) := by
  intro c
  induction c with
  | zero => exact fun i => .inl ⟨[], rfl⟩
  | succ m ih =>
    intro i
    rcases byteAt_shape data (9 + i * 2) with ⟨v1, hv1⟩ | ⟨e, he⟩
    · rcases byteAt_shape data (9 + i * 2 + 1) with ⟨v2, hv2⟩ | ⟨e, he⟩
      · rcases ih (i + 1) with ⟨w, hw⟩ | ⟨e, he⟩
        · exact .inl ⟨_, by
            simp only [readPairs]
            rw [hv1, hv2, hw]⟩
        · exact .inr ⟨e, by
            simp only [readPairs]
            rw [hv1, hv2, he]⟩
      · exact .inr ⟨e, by
          simp only [readPairs]
          rw [hv1, he]⟩
    · exact .inr ⟨e, by
        simp only [readPairs]
        rw [he]⟩

/-! ## Totality of the per-command decoders: each either returns a
value or a returned error; the panic branch of `readAt` / `sliceAt` is
unreachable because every read is preceded by an `ensure_len` -/

theorem decode_polling_total (data : List Nat) :
    (∃ r, decode_polling data = .ok r) ∨
      ∃ e, decode_polling data = .error (.err e) := by
  rcases ensureLen_shape data 19 with h1 | ⟨e, h1⟩
  · rcases expectCode_shape data 1 with h2 | ⟨e, h2⟩
    · rcases idmAt_shape data 1 with ⟨v3, h3⟩ | ⟨e, h3⟩
      · rcases pmmAt_shape data 9 with ⟨v4, h4⟩ | ⟨e, h4⟩
        · rcases leU16At_shape data 17 with ⟨v5, h5⟩ | ⟨e, h5⟩
          · exact .inl ⟨(v3, v4, v5), by
              unfold decode_polling; simp only [h1, h2, h3, h4, h5]⟩
          · exact .inr ⟨e, by
              unfold decode_polling; simp only [h1, h2, h3, h4, h5]⟩
        · exact .inr ⟨e, by unfold decode_polling; simp only [h1, h2, h3, h4]⟩
      · exact .inr ⟨e, by unfold decode_polling; simp only [h1, h2, h3]⟩
    · exact .inr ⟨e, by unfold decode_polling; simp only [h1, h2]⟩
  · exact .inr ⟨e, by unfold decode_polling; simp only [h1]⟩

theorem decode_read_total (data : List Nat) :
    (∃ r, decode_read data = .ok r) ∨
      ∃ e, decode_read data = .error (.err e) := by
  rcases ensureLen_shape data 12 with h1 | ⟨e, h1⟩
  · rcases expectCode_shape data 7 with h2 | ⟨e, h2⟩
    · rcases idmAt_shape data 1 with ⟨v3, h3⟩ | ⟨e, h3⟩
      · rcases byteAt_shape data 9 with ⟨v4, h4⟩ | ⟨e, h4⟩
        · rcases byteAt_shape data 10 with ⟨v5, h5⟩ | ⟨e, h5⟩
          · by_cases hs : v4 ≠ 0 ∨ v5 ≠ 0
            · exact .inr ⟨_, by
                unfold decode_read; simp only [h1, h2, h3, h4, h5]
                rw [if_pos hs]⟩
            · rcases byteAt_shape data 11 with ⟨v6, h6⟩ | ⟨e, h6⟩
              · rcases ensureLen_shape data (12 + v6 * 16) with h7 | ⟨e, h7⟩
                · rcases readBlocks_shape data v6 0 with ⟨v8, h8⟩ | ⟨e, h8⟩
                  · exact .inl ⟨(v3, (v4, v5), v8), by
                      unfold decode_read; simp only [h1, h2, h3, h4, h5]
                      rw [if_neg hs]
                      simp only [h6, h7, h8]⟩
                  · exact .inr ⟨e, by
                      unfold decode_read; simp only [h1, h2, h3, h4, h5]
                      rw [if_neg hs]
                      simp only [h6, h7, h8]⟩
                · exact .inr ⟨e, by
                    unfold decode_read; simp only [h1, h2, h3, h4, h5]
                    rw [if_neg hs]
                    simp only [h6, h7]⟩
              · exact .inr ⟨e, by
                  unfold decode_read; simp only [h1, h2, h3, h4, h5]
                  rw [if_neg hs]
                  simp only [h6]⟩
          · exact .inr ⟨e, by unfold decode_read; simp only [h1, h2, h3, h4, h5]⟩
        · exact .inr ⟨e, by unfold decode_read; simp only [h1, h2, h3, h4]⟩
      · exact .inr ⟨e, by unfold decode_read; simp only [h1, h2, h3]⟩
    · exact .inr ⟨e, by unfold decode_read; simp only [h1, h2]⟩
  · exact .inr ⟨e, by unfold decode_read; simp only [h1]⟩

theorem decode_request_service_total (data : List Nat) :
    (∃ r, decode_request_service data = .ok r) ∨
      ∃ e, decode_request_service data = .error (.err e) := by
  rcases ensureLen_shape data 10 with h1 | ⟨e, h1⟩
  · rcases expectCode_shape data 3 with h2 | ⟨e, h2⟩
    · rcases idmAt_shape data 1 with ⟨v3, h3⟩ | ⟨e, h3⟩
      · rcases byteAt_shape data 9 with ⟨v4, h4⟩ | ⟨e, h4⟩
        · rcases ensureLen_shape data (10 + v4 * 2) with h5 | ⟨e, h5⟩
          · rcases readU16s_shape data 10 v4 0 with ⟨v6, h6⟩ | ⟨e, h6⟩
            · exact .inl ⟨(v3, v6), by
                unfold decode_request_service
                simp only [h1, h2, h3, h4, h5, h6]⟩
            · exact .inr ⟨e, by
                unfold decode_request_service
                simp only [h1, h2, h3, h4, h5, h6]⟩
          · exact .inr ⟨e, by
              unfold decode_request_service; simp only [h1, h2, h3, h4, h5]⟩
        · exact .inr ⟨e, by
            unfold decode_request_service; simp only [h1, h2, h3, h4]⟩
      · exact .inr ⟨e, by unfold decode_request_service; simp only [h1, h2, h3]⟩
    · exact .inr ⟨e, by unfold decode_request_service; simp only [h1, h2]⟩
  · exact .inr ⟨e, by unfold decode_request_service; simp only [h1]⟩

theorem decode_request_response_total (data : List Nat) :
    (∃ r, decode_request_response data = .ok r) ∨
      ∃ e, decode_request_response data = .error (.err e) := by
  rcases ensureLen_shape data 10 with h1 | ⟨e, h1⟩
  · rcases expectCode_shape data 5 with h2 | ⟨e, h2⟩
    · rcases idmAt_shape data 1 with ⟨v3, h3⟩ | ⟨e, h3⟩
      · rcases byteAt_shape data 9 with ⟨v4, h4⟩ | ⟨e, h4⟩
        · exact .inl ⟨(v3, v4), by
            unfold decode_request_response; simp only [h1, h2, h3, h4]⟩
        · exact .inr ⟨e, by
            unfold decode_request_response; simp only [h1, h2, h3, h4]⟩
      · exact .inr ⟨e, by unfold decode_request_response; simp only [h1, h2, h3]⟩
    · exact .inr ⟨e, by unfold decode_request_response; simp only [h1, h2]⟩
  · exact .inr ⟨e, by unfold decode_request_response; simp only [h1]⟩

theorem decode_request_system_code_total (data : List Nat) :
    (∃ r, decode_request_system_code data = .ok r) ∨
      ∃ e, decode_request_system_code data = .error (.err e) := by
  rcases ensureLen_shape data 10 with h1 | ⟨e, h1⟩
  · rcases expectCode_shape data 13 with h2 | ⟨e, h2⟩
    · rcases idmAt_shape data 1 with ⟨v3, h3⟩ | ⟨e, h3⟩
      · rcases byteAt_shape data 9 with ⟨v4, h4⟩ | ⟨e, h4⟩
        · rcases ensureLen_shape data (10 + v4 * 2) with h5 | ⟨e, h5⟩
          · rcases readU16s_shape data 10 v4 0 with ⟨v6, h6⟩ | ⟨e, h6⟩
            · exact .inl ⟨(v3, v6), by
                unfold decode_request_system_code
                simp only [h1, h2, h3, h4, h5, h6]⟩
            · exact .inr ⟨e, by
                unfold decode_request_system_code
                simp only [h1, h2, h3, h4, h5, h6]⟩
          · exact .inr ⟨e, by
              unfold decode_request_system_code; simp only [h1, h2, h3, h4, h5]⟩
        · exact .inr ⟨e, by
            unfold decode_request_system_code; simp only [h1, h2, h3, h4]⟩
      · exact .inr ⟨e, by
          unfold decode_request_system_code; simp only [h1, h2, h3]⟩
    · exact .inr ⟨e, by unfold decode_request_system_code; simp only [h1, h2]⟩
  · exact .inr ⟨e, by unfold decode_request_system_code; simp only [h1]⟩

theorem decode_search_service_code_total (data : List Nat) :
    (∃ r, decode_search_service_code data = .ok r) ∨
      ∃ e, decode_search_service_code data = .error (.err e) := by
  rcases ensureLen_shape data 10 with h1 | ⟨e, h1⟩
  · rcases expectCode_shape data 11 with h2 | ⟨e, h2⟩
    · rcases idmAt_shape data 1 with ⟨v3, h3⟩ | ⟨e, h3⟩
      · rcases byteAt_shape data 9 with ⟨v4, h4⟩ | ⟨e, h4⟩
        · by_cases hf : v4 = 0
          · exact .inl ⟨(v3, none), by
              unfold decode_search_service_code; simp only [h1, h2, h3, h4]
              rw [if_pos hf]⟩
          · rcases ensureLen_shape data 12 with h5 | ⟨e, h5⟩
            · rcases leU16At_shape data 10 with ⟨v6, h6⟩ | ⟨e, h6⟩
              · exact .inl ⟨(v3, some v6), by
                  unfold decode_search_service_code; simp only [h1, h2, h3, h4]
                  rw [if_neg hf]
                  simp only [h5, h6]⟩
              · exact .inr ⟨e, by
                  unfold decode_search_service_code; simp only [h1, h2, h3, h4]
                  rw [if_neg hf]
                  simp only [h5, h6]⟩
            · exact .inr ⟨e, by
                unfold decode_search_service_code; simp only [h1, h2, h3, h4]
                rw [if_neg hf]
                simp only [h5]⟩
        · exact .inr ⟨e, by
            unfold decode_search_service_code; simp only [h1, h2, h3, h4]⟩
      · exact .inr ⟨e, by
          unfold decode_search_service_code; simp only [h1, h2, h3]⟩
    · exact .inr ⟨e, by unfold decode_search_service_code; simp only [h1, h2]⟩
  · exact .inr ⟨e, by unfold decode_search_service_code; simp only [h1]⟩

theorem decode_write_total (data : List Nat) :
    (∃ r, decode_write data = .ok r) ∨
      ∃ e, decode_write data = .error (.err e) := by
  rcases ensureLen_shape data 11 with h1 | ⟨e, h1⟩
  · rcases expectCode_shape data 9 with h2 | ⟨e, h2⟩
    · rcases idmAt_shape data 1 with ⟨v3, h3⟩ | ⟨e, h3⟩
      · by_cases hrem : data.length - 9 < 2 ∨ (data.length - 9) % 2 ≠ 0
        · exact .inr ⟨_, by
            unfold decode_write; simp only [h1, h2, h3]
            rw [if_pos hrem]⟩
        · rcases readPairs_shape data ((data.length - 9) / 2) 0 with ⟨v, hv⟩ | ⟨e, he⟩
          · rcases hfz : firstNonZero v 0 with _ | ⟨i, s1, s2⟩
            · exact .inl ⟨(v3, v), by
                unfold decode_write; simp only [h1, h2, h3]
                rw [if_neg hrem]
                simp only [hv, hfz]⟩
            · by_cases hl : v.length = 1
              · exact .inr ⟨_, by
                  unfold decode_write; simp only [h1, h2, h3]
                  rw [if_neg hrem]
                  simp only [hv, hfz]
                  rw [if_pos hl]⟩
              · exact .inr ⟨_, by
                  unfold decode_write; simp only [h1, h2, h3]
                  rw [if_neg hrem]
                  simp only [hv, hfz]
                  rw [if_neg hl]⟩
          · exact .inr ⟨e, by
              unfold decode_write; simp only [h1, h2, h3]
              rw [if_neg hrem]
              simp only [he]⟩
      · exact .inr ⟨e, by unfold decode_write; simp only [h1, h2, h3]⟩
    · exact .inr ⟨e, by unfold decode_write; simp only [h1, h2]⟩
  · exact .inr ⟨e, by unfold decode_write; simp only [h1]⟩

/-! ## Top-level decode: totality and length errors -/

/-- The fixed minimal length (the `MIN_LEN` constant) that each
per-command decoder checks before reading anything: polling 19,
request-service 10, request-response 10, read 12, write 11,
search 10, request-system-code 10. -/
def minRespLen : Nat → Nat
  | 0 => 19
  | 2 => 10
  | 4 => 10
  | 6 => 12
  | 8 => 11
  | 10 => 10
  | 12 => 10
  | _ => 1

theorem decode_polling_short (data : List Nat) (h : data.length < 19) :
    decode_polling data = .error (.err (.InvalidLength 19 data.length)) := by
  unfold decode_polling
  rw [ensureLen_err data 19 h]

theorem decode_read_short (data : List Nat) (h : data.length < 12) :
    decode_read data = .error (.err (.InvalidLength 12 data.length)) := by
  unfold decode_read
  rw [ensureLen_err data 12 h]

theorem decode_request_service_short (data : List Nat) (h : data.length < 10) :
    decode_request_service data = .error (.err (.InvalidLength 10 data.length)) := by
  unfold decode_request_service
  rw [ensureLen_err data 10 h]

theorem decode_request_response_short (data : List Nat) (h : data.length < 10) :
    decode_request_response data = .error (.err (.InvalidLength 10 data.length)) := by
  unfold decode_request_response
  rw [ensureLen_err data 10 h]

theorem decode_request_system_code_short (data : List Nat) (h : data.length < 10) :
    decode_request_system_code data =
      .error (.err (.InvalidLength 10 data.length)) := by
  unfold decode_request_system_code
  rw [ensureLen_err data 10 h]

theorem decode_search_service_code_short (data : List Nat) (h : data.length < 10) :
    decode_search_service_code data =
      .error (.err (.InvalidLength 10 data.length)) := by
  unfold decode_search_service_code
  rw [ensureLen_err data 10 h]

theorem decode_write_short (data : List Nat) (h : data.length < 11) :
    decode_write data = .error (.err (.InvalidLength 11 data.length)) := by
  unfold decode_write
  rw [ensureLen_err data 11 h]

/-- C3: for every supported command code and every input byte sequence,
`Response::decode` is total: it never reaches the panic branch of a raw
slice index, always returning a `Response` or a returned error; and a
buffer carrying the expected response code but shorter than the
decoder's declared minimal shape produces a length error. -/
theorem response_decode_total (cmd : Nat)
    (hcmd : cmd = 0 ∨ cmd = 2 ∨ cmd = 4 ∨ cmd = 6 ∨ cmd = 8 ∨ cmd = 10 ∨ cmd = 12)
    (data : List Nat) :
    ((∃ r, Response.decode cmd data = .ok r) ∨
      (∃ e, Response.decode cmd data = .error (.err e))) ∧
    (data.getD 0 0 = cmd + 1 → data.length < minRespLen cmd →
      Response.decode cmd data =
        .error (.err (.InvalidLength (minRespLen cmd) data.length))) := by
  have hpos_of : data.getD 0 0 = cmd + 1 → 0 < data.length := by
    intro hb
    rcases data with _ | ⟨d, t⟩
    · exact absurd hb (by simp [List.getD])
    · simp
  rcases hcmd with rfl | rfl | rfl | rfl | rfl | rfl | rfl
  · constructor
    · rcases ensureLen_shape data 1 with h1 | ⟨e, h1⟩
      · rcases expectCode_shape data ((0 + 1) % 256) with h2 | ⟨e, h2⟩
        · rcases decode_polling_total data with ⟨r, hr⟩ | ⟨e, hr⟩
          · obtain ⟨idm, pmm, sys⟩ := r
            exact .inl ⟨Response.Polling idm pmm sys, by
              unfold Response.decode; simp only [h1, h2, hr]⟩
          · exact .inr ⟨e, by unfold Response.decode; simp only [h1, h2, hr]⟩
        · exact .inr ⟨e, by unfold Response.decode; simp only [h1, h2]⟩
      · exact .inr ⟨e, by unfold Response.decode; simp only [h1]⟩
    · intro hb hlt
      have hpos := hpos_of hb
      unfold Response.decode
      simp only [ensureLen_ok data 1 hpos,
        expectCode_ok data ((0 + 1) % 256) hpos (by rw [hb]),
        decode_polling_short data hlt, minRespLen]
  · constructor
    · rcases ensureLen_shape data 1 with h1 | ⟨e, h1⟩
      · rcases expectCode_shape data ((2 + 1) % 256) with h2 | ⟨e, h2⟩
        · rcases decode_request_service_total data with ⟨r, hr⟩ | ⟨e, hr⟩
          · obtain ⟨idm, versions⟩ := r
            exact .inl ⟨Response.RequestService idm versions, by
              unfold Response.decode; simp only [h1, h2, hr]⟩
          · exact .inr ⟨e, by unfold Response.decode; simp only [h1, h2, hr]⟩
        · exact .inr ⟨e, by unfold Response.decode; simp only [h1, h2]⟩
      · exact .inr ⟨e, by unfold Response.decode; simp only [h1]⟩
    · intro hb hlt
      have hpos := hpos_of hb
      unfold Response.decode
      simp only [ensureLen_ok data 1 hpos,
        expectCode_ok data ((2 + 1) % 256) hpos (by rw [hb]),
        decode_request_service_short data hlt, minRespLen]
  · constructor
    · rcases ensureLen_shape data 1 with h1 | ⟨e, h1⟩
      · rcases expectCode_shape data ((4 + 1) % 256) with h2 | ⟨e, h2⟩
        · rcases decode_request_response_total data with ⟨r, hr⟩ | ⟨e, hr⟩
          · obtain ⟨idm, mode⟩ := r
            exact .inl ⟨Response.RequestResponse idm mode, by
              unfold Response.decode; simp only [h1, h2, hr]⟩
          · exact .inr ⟨e, by unfold Response.decode; simp only [h1, h2, hr]⟩
        · exact .inr ⟨e, by unfold Response.decode; simp only [h1, h2]⟩
      · exact .inr ⟨e, by unfold Response.decode; simp only [h1]⟩
    · intro hb hlt
      have hpos := hpos_of hb
      unfold Response.decode
      simp only [ensureLen_ok data 1 hpos,
        expectCode_ok data ((4 + 1) % 256) hpos (by rw [hb]),
        decode_request_response_short data hlt, minRespLen]
  · constructor
    · rcases ensureLen_shape data 1 with h1 | ⟨e, h1⟩
      · rcases expectCode_shape data ((6 + 1) % 256) with h2 | ⟨e, h2⟩
        · rcases decode_read_total data with ⟨r, hr⟩ | ⟨e, hr⟩
          · obtain ⟨idm, st, blocks⟩ := r
            exact .inl ⟨Response.ReadWithoutEncryption idm st blocks, by
              unfold Response.decode; simp only [h1, h2, hr]⟩
          · exact .inr ⟨e, by unfold Response.decode; simp only [h1, h2, hr]⟩
        · exact .inr ⟨e, by unfold Response.decode; simp only [h1, h2]⟩
      · exact .inr ⟨e, by unfold Response.decode; simp only [h1]⟩
    · intro hb hlt
      have hpos := hpos_of hb
      unfold Response.decode
      simp only [ensureLen_ok data 1 hpos,
        expectCode_ok data ((6 + 1) % 256) hpos (by rw [hb]),
        decode_read_short data hlt, minRespLen]
  · constructor
    · rcases ensureLen_shape data 1 with h1 | ⟨e, h1⟩
      · rcases expectCode_shape data ((8 + 1) % 256) with h2 | ⟨e, h2⟩
        · rcases decode_write_total data with ⟨r, hr⟩ | ⟨e, hr⟩
          · obtain ⟨idm, statuses⟩ := r
            exact .inl ⟨Response.WriteWithoutEncryption idm statuses, by
              unfold Response.decode; simp only [h1, h2, hr]⟩
          · exact .inr ⟨e, by unfold Response.decode; simp only [h1, h2, hr]⟩
        · exact .inr ⟨e, by unfold Response.decode; simp only [h1, h2]⟩
      · exact .inr ⟨e, by unfold Response.decode; simp only [h1]⟩
    · intro hb hlt
      have hpos := hpos_of hb
      unfold Response.decode
      simp only [ensureLen_ok data 1 hpos,
        expectCode_ok data ((8 + 1) % 256) hpos (by rw [hb]),
        decode_write_short data hlt, minRespLen]
  · constructor
    · rcases ensureLen_shape data 1 with h1 | ⟨e, h1⟩
      · rcases expectCode_shape data ((10 + 1) % 256) with h2 | ⟨e, h2⟩
        · rcases decode_search_service_code_total data with ⟨r, hr⟩ | ⟨e, hr⟩
          · obtain ⟨idm, code⟩ := r
            exact .inl ⟨Response.SearchServiceCode idm code, by
              unfold Response.decode; simp only [h1, h2, hr]⟩
          · exact .inr ⟨e, by unfold Response.decode; simp only [h1, h2, hr]⟩
        · exact .inr ⟨e, by unfold Response.decode; simp only [h1, h2]⟩
      · exact .inr ⟨e, by unfold Response.decode; simp only [h1]⟩
    · intro hb hlt
      have hpos := hpos_of hb
      unfold Response.decode
      simp only [ensureLen_ok data 1 hpos,
        expectCode_ok data ((10 + 1) % 256) hpos (by rw [hb]),
        decode_search_service_code_short data hlt, minRespLen]
  · constructor
    · rcases ensureLen_shape data 1 with h1 | ⟨e, h1⟩
      · rcases expectCode_shape data ((12 + 1) % 256) with h2 | ⟨e, h2⟩
        · rcases decode_request_system_code_total data with ⟨r, hr⟩ | ⟨e, hr⟩
          · obtain ⟨idm, codes⟩ := r
            exact .inl ⟨Response.RequestSystemCode idm codes, by
              unfold Response.decode; simp only [h1, h2, hr]⟩
          · exact .inr ⟨e, by unfold Response.decode; simp only [h1, h2, hr]⟩
        · exact .inr ⟨e, by unfold Response.decode; simp only [h1, h2]⟩
      · exact .inr ⟨e, by unfold Response.decode; simp only [h1]⟩
    · intro hb hlt
      have hpos := hpos_of hb
      unfold Response.decode
      simp only [ensureLen_ok data 1 hpos,
        expectCode_ok data ((12 + 1) % 256) hpos (by rw [hb]),
        decode_request_system_code_short data hlt, minRespLen]

/-- Witness for C3 at command 0x00 and the one-byte buffer `[0x01]`. -/
theorem response_decode_total_witness :
    ((∃ r, Response.decode 0 [1] = .ok r) ∨
      (∃ e, Response.decode 0 [1] = .error (.err e))) ∧
    Response.decode 0 [1] = .error (.err (.InvalidLength (minRespLen 0) 1)) :=
  ⟨(response_decode_total 0 (Or.inl rfl) [1]).1,
   (response_decode_total 0 (Or.inl rfl) [1]).2 (by decide) (by decide)⟩

/-- C4 counterexample: on the empty payload `Response::decode` returns
a length error (`InvalidLength 1 0`), not an unexpected-response
error, contradicting the claim that the empty-payload case yields an
unexpected-response error. -/
theorem response_decode_empty_counterexample :
    Response.decode 0 [] = .error (.err (.InvalidLength 1 0)) := rfl

/-- C4 (amended): for every supported command code, `Response::decode`
first verifies that the payload is non-empty and starts with
`expected_cmd + 1`; a non-empty payload with a different first byte
yields an unexpected-response error carrying the expected and actual
bytes, while the empty payload yields a length error. -/
theorem response_decode_code_check (cmd : Nat)
    (hcmd : cmd = 0 ∨ cmd = 2 ∨ cmd = 4 ∨ cmd = 6 ∨ cmd = 8 ∨ cmd = 10 ∨ cmd = 12)
    (data : List Nat) :
    (data = [] → Response.decode cmd data = .error (.err (.InvalidLength 1 0))) ∧
    (data ≠ [] → data.getD 0 0 ≠ cmd + 1 →
      Response.decode cmd data =
        .error (.err (.UnexpectedResponse (cmd + 1) (data.getD 0 0)))) := by
  have hempty : data = [] →
      Response.decode cmd data = .error (.err (.InvalidLength 1 0)) := by
    rintro rfl
    unfold Response.decode
    rw [ensureLen_err [] 1 (by simp)]
    rfl
  refine ⟨hempty, ?_⟩
  intro hne hmis
  have hpos : 0 < data.length := List.length_pos.mpr hne
  have hm : (cmd + 1) % 256 = cmd + 1 := by
    rcases hcmd with rfl | rfl | rfl | rfl | rfl | rfl | rfl <;> rfl
  unfold Response.decode
  simp only [ensureLen_ok data 1 hpos, hm,
    expectCode_mismatch data (cmd + 1) hpos hmis]

/-- Witness for C4 (amended) at command 0x00 and the buffer `[0x05]`. -/
theorem response_decode_code_check_witness :
    Response.decode 0 [5] = .error (.err (.UnexpectedResponse 1 5)) :=
  (response_decode_code_check 0 (Or.inl rfl) [5]).2 (by decide) (by decide)

/-! ## SearchServiceCode present-flag behaviour (C10) -/

/-- C10: `decode_search_service_code` treats every non-zero
present-flag byte as present.  For a payload `0x0B ++ idm(8) ++ flag ++
rest`: flag = 0 returns `(idm, none)` ignoring `rest`; any flag ≠ 0
requires two further bytes and returns the service code read
little-endian from them, failing with a length error when they are
absent. -/
theorem decode_search_service_code_flag (idm : List Nat) (flag : Nat)
    (rest : List Nat) (h8 : idm.length = 8) :
    (flag = 0 →
      decode_search_service_code (11 :: idm ++ flag :: rest) = .ok (idm, none)) ∧
    (flag ≠ 0 → ∀ a b t, rest = a :: b :: t →
      decode_search_service_code (11 :: idm ++ flag :: rest) =
        .ok (idm, some (a + 256 * b))) ∧
    (flag ≠ 0 → rest.length < 2 →
      decode_search_service_code (11 :: idm ++ flag :: rest) =
        .error (.err (.InvalidLength 12 (10 + rest.length)))) := by
  have hdl : (11 :: idm ++ flag :: rest).length = 10 + rest.length := by
    simp [h8]
    omega
  have h1 : ensureLen (11 :: idm ++ flag :: rest) 10 = .ok () :=
    ensureLen_ok _ _ (by omega)
  have h2 : expectResponseCode (11 :: idm ++ flag :: rest) 11 = .ok () :=
    expectCode_ok _ _ (by omega) rfl
  have h3 : idmAt (11 :: idm ++ flag :: rest) 1 = .ok idm := by
    rw [idmAt_ok _ 1 (by omega)]
    show Except.ok ((idm ++ flag :: rest).take 8) = Except.ok idm
    rw [← h8, take_append_length]
  have h4 : byteAt (11 :: idm ++ flag :: rest) 9 = .ok flag := by
    rw [byteAt_ok _ 9 (by omega)]
    show Except.ok ((idm ++ flag :: rest).getD 8 0) = Except.ok flag
    rw [getD_append_right _ _ _ (by omega), h8]
    simp
  refine ⟨?_, ?_, ?_⟩
  · rintro rfl
    unfold decode_search_service_code
    simp only [h1, h2, h3, h4]
    simp
  · rintro hf a b t rfl
    have h5 : ensureLen (11 :: idm ++ flag :: a :: b :: t) 12 = .ok () :=
      ensureLen_ok _ _ (by simp [h8]; omega)
    have h6 : leU16At (11 :: idm ++ flag :: a :: b :: t) 10 = .ok (a + 256 * b) := by
      rw [leU16At_ok _ 10 (by simp [h8]; omega)]
      have hga : (11 :: idm ++ flag :: a :: b :: t).getD 10 0 = a := by
        show (idm ++ flag :: a :: b :: t).getD 9 0 = a
        rw [getD_append_right _ _ _ (by omega), h8]
        simp
      have hgb : (11 :: idm ++ flag :: a :: b :: t).getD 11 0 = b := by
        show (idm ++ flag :: a :: b :: t).getD 10 0 = b
        rw [getD_append_right _ _ _ (by omega), h8]
        simp
      rw [hga, hgb]
    unfold decode_search_service_code
    simp only [h1, h2, h3, h4]
    rw [if_neg hf]
    simp only [h5, h6]
  · intro hf hlen2
    have h5 : ensureLen (11 :: idm ++ flag :: rest) 12 =
        .error (.err (.InvalidLength 12 (11 :: idm ++ flag :: rest).length)) :=
      ensureLen_err _ _ (by omega)
    unfold decode_search_service_code
    simp only [h1, h2, h3, h4]
    rw [if_neg hf]
    simp only [h5, hdl]

/-- Witness for C10: flag byte 2 (not 1) still selects the present
branch and reads the following two bytes little-endian. -/
theorem decode_search_service_code_flag_witness :
    decode_search_service_code (11 :: [1, 2, 3, 4, 5, 6, 7, 8] ++ 2 :: [52, 18]) =
      .ok ([1, 2, 3, 4, 5, 6, 7, 8], some (52 + 256 * 18)) :=
  (decode_search_service_code_flag [1, 2, 3, 4, 5, 6, 7, 8] 2 [52, 18]
    (by decide)).2.1 (by decide) 52 18 [] rfl

/-! ## WriteWithoutEncryption status policy (C5) -/

/-- The wire form of a list of 2-byte status pairs. -/
def pairsFlat : List (Nat × Nat) → List Nat
  | [] => []
  | (s1, s2) :: rest => s1 :: s2 :: pairsFlat rest

theorem pairsFlat_length (l : List (Nat × Nat)) :
    (pairsFlat l).length = 2 * l.length := by
  induction l with
  | nil => rfl
  | cons p rest ih =>
    obtain ⟨s1, s2⟩ := p
    simp [pairsFlat, ih]
    omega

/-- The pair-reading loop returns exactly the pairs laid out after a
prefix of length `9 + 2*i`. -/
theorem readPairs_append (pre : List Nat) (pairs : List (Nat × Nat)) (i : Nat)
    (hp : pre.length = 9 + 2 * i) :
    readPairs (pre ++ pairsFlat pairs) pairs.length i = .ok pairs := by
  induction pairs generalizing pre i with
  | nil => rfl
  | cons pr rest ih =>
    obtain ⟨s1, s2⟩ := pr
    have hlen : (pre ++ pairsFlat ((s1, s2) :: rest)).length =
        pre.length + 2 + (pairsFlat rest).length := by
      simp [pairsFlat]
      omega
    have hb1 : byteAt (pre ++ pairsFlat ((s1, s2) :: rest)) (9 + i * 2) = .ok s1 := by
      rw [byteAt_ok _ _ (by omega)]
      show Except.ok ((pre ++ (s1 :: s2 :: pairsFlat rest)).getD (9 + i * 2) 0) = _
      rw [getD_append_right _ _ _ (by omega)]
      have hidx : 9 + i * 2 - pre.length = 0 := by omega
      rw [hidx]
      rfl
    have hb2 : byteAt (pre ++ pairsFlat ((s1, s2) :: rest)) (9 + i * 2 + 1) = .ok s2 := by
      rw [byteAt_ok _ _ (by omega)]
      show Except.ok ((pre ++ (s1 :: s2 :: pairsFlat rest)).getD (9 + i * 2 + 1) 0) = _
      rw [getD_append_right _ _ _ (by omega)]
      have hidx : 9 + i * 2 + 1 - pre.length = 1 := by omega
      rw [hidx]
      rfl
    have hrec : readPairs (pre ++ pairsFlat ((s1, s2) :: rest)) rest.length (i + 1) =
        .ok rest := by
      have hsplit : pre ++ pairsFlat ((s1, s2) :: rest) =
          (pre ++ [s1, s2]) ++ pairsFlat rest := by
        simp [pairsFlat]
      rw [hsplit]
      exact ih (pre ++ [s1, s2]) (i + 1) (by simp [hp]; omega)
    show readPairs (pre ++ pairsFlat ((s1, s2) :: rest)) (rest.length + 1) i =
      .ok ((s1, s2) :: rest)
    simp only [readPairs, hb1, hb2, hrec]

theorem firstNonZero_none (l : List (Nat × Nat)) (h : ∀ p ∈ l, p = (0, 0)) :
    ∀ i, firstNonZero l i = none := by
  induction l with
  | nil => intro i; rfl
  | cons p rest ih =>
    intro i
    obtain ⟨s1, s2⟩ := p
    have hp := h (s1, s2) (by simp)
    simp only [Prod.mk.injEq] at hp
    simp only [firstNonZero]
    rw [if_neg (by omega)]
    exact ih (fun q hq => h q (List.mem_cons_of_mem _ hq)) (i + 1)

theorem firstNonZero_found (l : List (Nat × Nat)) :
    ∀ j s1 s2, j < l.length → l.getD j (0, 0) = (s1, s2) → ¬(s1 = 0 ∧ s2 = 0) →
    (∀ k, k < j → l.getD k (0, 0) = (0, 0)) →
    ∀ i, firstNonZero l i = some (i + j, s1, s2) := by
  induction l with
  | nil =>
    intro j _ _ hj
    simp at hj
  | cons p rest ih =>
    intro j s1 s2 hj hget hnz hzero i
    obtain ⟨a, b⟩ := p
    cases j with
    | zero =>
      simp only [List.getD_cons_zero, Prod.mk.injEq] at hget
      obtain ⟨rfl, rfl⟩ := hget
      simp only [firstNonZero]
      rw [if_pos (by omega)]
      simp
    | succ m =>
      have h0 := hzero 0 (by omega)
      simp only [List.getD_cons_zero, Prod.mk.injEq] at h0
      simp only [firstNonZero]
      rw [if_neg (by omega)]
      have hrec := ih m s1 s2 (by simpa using hj) (by simpa using hget) hnz
        (fun k hk => by
          have := hzero (k + 1) (by omega)
          simpa using this) (i + 1)
      rw [hrec]
      have hadd : i + 1 + m = i + (m + 1) := by omega
      rw [hadd]

/-- `decode_write` on a well-formed payload: result determined by the
first non-zero status pair. -/
theorem decode_write_shape (idm : List Nat) (h8 : idm.length = 8)
    (pairs : List (Nat × Nat)) (hne : pairs ≠ []) :
    decode_write (9 :: idm ++ pairsFlat pairs) =
      (match firstNonZero pairs 0 with
      | none => .ok (idm, pairs)
      | some (i, s1, s2) =>
        if pairs.length = 1 then .error (.err (.FelicaStatus s1 s2))
        else .error (.err (.FelicaBlockStatus i s1 s2))) := by
  have hple : 1 ≤ pairs.length := by
    rcases pairs with _ | ⟨p, t⟩
    · exact absurd rfl hne
    · simp
  have hdl : (9 :: idm ++ pairsFlat pairs).length = 9 + 2 * pairs.length := by
    simp [h8, pairsFlat_length]
    omega
  have h1 : ensureLen (9 :: idm ++ pairsFlat pairs) 11 = .ok () :=
    ensureLen_ok _ _ (by omega)
  have h2 : expectResponseCode (9 :: idm ++ pairsFlat pairs) 9 = .ok () :=
    expectCode_ok _ _ (by omega) rfl
  have h3 : idmAt (9 :: idm ++ pairsFlat pairs) 1 = .ok idm := by
    rw [idmAt_ok _ 1 (by omega)]
    show Except.ok ((idm ++ pairsFlat pairs).take 8) = Except.ok idm
    rw [← h8, take_append_length]
  have h5 : readPairs (9 :: idm ++ pairsFlat pairs) pairs.length 0 = .ok pairs := by
    have h := readPairs_append (9 :: idm) pairs 0 (by simp [h8])
    simpa using h
  unfold decode_write
  simp only [h1, h2, h3, hdl]
  rw [if_neg (by omega)]
  have hcnt : (9 + 2 * pairs.length - 9) / 2 = pairs.length := by omega
  rw [hcnt]
  simp only [h5]

/-- C5: `decode_write` decodes all 2-byte status pairs after the IDm;
if every pair is `(0,0)` it returns them, otherwise the first non-zero
pair becomes a `FelicaStatus` error when it is the only pair, or a
`FelicaBlockStatus` error carrying its index when there are several.
In particular the payload `09 <idm> A4 00` decoded with
`expected_cmd = 0x08` yields `FelicaStatus 0xA4 0x00`. -/
theorem decode_write_status_policy (idm : List Nat) (h8 : idm.length = 8)
    (pairs : List (Nat × Nat)) (hne : pairs ≠ []) :
    ((∀ p ∈ pairs, p = (0, 0)) →
      decode_write (9 :: idm ++ pairsFlat pairs) = .ok (idm, pairs)) ∧
    (∀ j s1 s2, j < pairs.length → pairs.getD j (0, 0) = (s1, s2) →
      ¬(s1 = 0 ∧ s2 = 0) → (∀ k, k < j → pairs.getD k (0, 0) = (0, 0)) →
      decode_write (9 :: idm ++ pairsFlat pairs) =
        (if pairs.length = 1 then .error (.err (.FelicaStatus s1 s2))
         else .error (.err (.FelicaBlockStatus j s1 s2)))) ∧
    (Response.decode 8 (9 :: idm ++ [164, 0]) =
      .error (.err (.FelicaStatus 164 0))) := by
  refine ⟨?_, ?_, ?_⟩
  · intro hz
    rw [decode_write_shape idm h8 pairs hne, firstNonZero_none pairs hz 0]
  · intro j s1 s2 hj hget hnz hzero
    rw [decode_write_shape idm h8 pairs hne,
      firstNonZero_found pairs j s1 s2 hj hget hnz hzero 0]
    simp
  · have hdw : decode_write (9 :: idm ++ [164, 0]) =
        .error (.err (.FelicaStatus 164 0)) := by
      show decode_write (9 :: idm ++ pairsFlat [(164, 0)]) = _
      rw [decode_write_shape idm h8 [(164, 0)] (by simp)]
      rfl
    have hpos : 0 < (9 :: idm ++ [164, 0]).length := by simp
    unfold Response.decode
    simp only [ensureLen_ok _ 1 hpos,
      expectCode_ok _ ((8 + 1) % 256) hpos rfl, hdw]

/-- Witness for C5: a single all-zero status pair decodes successfully,
and the concrete write-status scenario produces `FelicaStatus 0xA4 0`. -/
theorem decode_write_status_policy_witness :
    decode_write (9 :: [1, 2, 3, 4, 5, 6, 7, 8] ++ pairsFlat [(0, 0)]) =
        .ok ([1, 2, 3, 4, 5, 6, 7, 8], [(0, 0)]) ∧
    Response.decode 8 (9 :: [1, 2, 3, 4, 5, 6, 7, 8] ++ [164, 0]) =
        .error (.err (.FelicaStatus 164 0)) :=
  ⟨(decode_write_status_policy [1, 2, 3, 4, 5, 6, 7, 8] (by decide) [(0, 0)]
      (by decide)).1 (by decide),
   (decode_write_status_policy [1, 2, 3, 4, 5, 6, 7, 8] (by decide) [(0, 0)]
      (by decide)).2.2⟩

/-! ## S330 wrap_command (C8) (src/device/models/s330/mod.rs) -/

/-- `S330Model::wrap_command`: forward pre-wrapped `0xD4` packets;
wrap Polling payloads as InListPassiveTarget `D4 4A 01 01`; wrap
everything else as InCommunicateThru `D4 42 <len as u8>`. -/
def wrapCommand (framed payload : List Nat) : List Nat :=
  if framed ≠ [] ∧ framed.headD 0 = 212 then framed
  else if payload ≠ [] ∧ payload.headD 0 = 0 then
    212 :: 74 :: 1 :: 1 :: payload
  else 212 :: 66 :: (payload.length % 256) :: payload

/-- C8: `wrap_command` returns the framed bytes unchanged when they are
non-empty and start with `0xD4`; otherwise `D4 4A 01 01 ++ payload`
when the raw payload is non-empty and starts with `0x00` (Polling); and
otherwise `D4 42 <len(u8)> ++ payload`. -/
theorem s330_wrap_command_spec (framed payload : List Nat) :
    (framed ≠ [] → framed.headD 0 = 212 → wrapCommand framed payload = framed) ∧
    (¬(framed ≠ [] ∧ framed.headD 0 = 212) → payload ≠ [] → payload.headD 0 = 0 →
      wrapCommand framed payload = 212 :: 74 :: 1 :: 1 :: payload) ∧
    (¬(framed ≠ [] ∧ framed.headD 0 = 212) →
      ¬(payload ≠ [] ∧ payload.headD 0 = 0) →
      wrapCommand framed payload = 212 :: 66 :: (payload.length % 256) :: payload) := by
  refine ⟨?_, ?_, ?_⟩
  · intro h1 h2
    unfold wrapCommand
    rw [if_pos ⟨h1, h2⟩]
  · intro h1 h2 h3
    unfold wrapCommand
    rw [if_neg h1, if_pos ⟨h2, h3⟩]
  · intro h1 h2
    unfold wrapCommand
    rw [if_neg h1, if_neg h2]

/-- Witness for C8 on one concrete input per branch. -/
theorem s330_wrap_command_spec_witness :
    wrapCommand [212, 9] [5] = [212, 9] ∧
    wrapCommand [] [0, 1, 2] = 212 :: 74 :: 1 :: 1 :: [0, 1, 2] ∧
    wrapCommand [] [6, 7] = 212 :: 66 :: ([6, 7] : List Nat).length % 256 :: [6, 7] :=
  ⟨(s330_wrap_command_spec [212, 9] [5]).1 (by decide) (by decide),
   (s330_wrap_command_spec [] [0, 1, 2]).2.1 (by decide) (by decide) (by decide),
   (s330_wrap_command_spec [] [6, 7]).2.2 (by decide) (by decide)⟩

/-! ## BlockElement encoding (C9) (src/types.rs) -/

inductive AccessMode where
  | CashBackOrDecrement
  | DirectAccessOrDecrement
  | DirectAccessOrRead
deriving DecidableEq

/-- The `#[repr(u8)]` value of an `AccessMode` (the Rust `as u8` cast). -/
def AccessMode.toU8 : AccessMode → Nat
  | .CashBackOrDecrement => 0
  | .DirectAccessOrDecrement => 1
  | .DirectAccessOrRead => 2

/-- `BlockElement`: service index (u8), access mode, 16-bit block number. -/
structure BlockElement where
  serviceIndex : Nat
  accessMode : AccessMode
  blockNumber : Nat
deriving DecidableEq

/-- `BlockElement::encode`:
`[service_index, access_mode as u8, (block_number & 0xff) as u8]`. -/
def BlockElement.encode (b : BlockElement) : List Nat :=
  [b.serviceIndex, b.accessMode.toU8, b.blockNumber % 256]

/-- C9: `BlockElement::encode` always returns exactly the 3 bytes
`[service_index, access_mode, block_number % 256]`: the high byte of
the block number is dropped and the encoding of any block number equals
the encoding of its low byte (no 2-byte element form exists). -/
theorem block_element_encode_spec (si : Nat) (am : AccessMode) (bn : Nat) :
    (BlockElement.mk si am bn).encode = [si, am.toU8, bn % 256] ∧
    (BlockElement.mk si am bn).encode.length = 3 ∧
    (BlockElement.mk si am bn).encode = (BlockElement.mk si am (bn % 256)).encode := by
  refine ⟨rfl, rfl, ?_⟩
  show [si, am.toU8, bn % 256] = [si, am.toU8, bn % 256 % 256]
  rw [Nat.mod_mod_of_dvd bn (by norm_num)]

/-! ## S330 multi-frame extractor (C6, C7)
(src/device/models/s330/rcs956/multi_frame.rs)

The Rust while-loops advance an index into a fixed buffer, so they are
modelled with an explicit fuel argument; the top-level entry point
passes `raw.length + 1`, which strictly exceeds the number of loop
iterations (every iteration advances the index by at least one). -/

/-- `Frame::encode(p).ok()`. -/
def encodeOk (p : List Nat) : Option (List Nat) :=
  match Frame.encode p with
  | .ok f => some f
  | .error _ => none

/-- Re-framing of a decoded PN532 payload that starts with the device
prefix `0xD5`: find the expected response code in `payload[1..]` and
re-encode the tail (nothing is emitted when the code is absent or
re-encoding fails). -/
def innerReframe (payload : List Nat) (expResp : Nat) : List (List Nat) :=
  match (payload.drop 1).findIdx? (fun b => b == expResp) with
  | some rel =>
    match Frame.encode (payload.drop (1 + rel)) with
    | .ok f => [f]
    | .error _ => []
  | none => []

/-- The frames emitted for one preamble-delimited candidate: decode it;
on success push the candidate itself, or, when the decoded payload
starts with `0xD5`, the re-framed inner payload; on failure nothing. -/
def emitForCandidate (candidate : List Nat) (expResp : Nat) : List (List Nat) :=
  match Frame.decode candidate with
  | .ok payload =>
    if payload.headD 0 = 213 then innerReframe payload expResp
    else [candidate]
  | .error _ => []

/-- The primary scan: walk the buffer; at each explicit preamble read
the length byte at offset 3, skip zero-length frames (RCS956 ACKs), and
emit every complete frame via `emitForCandidate`, stopping at an incomplete
trailing frame.  The dead Rust guard `total == 0` (from `checked_add`) is kept. -/
def scanFrames (raw : List Nat) (expResp : Nat) : Nat → Nat → List (List Nat)
  | 0, _ => []
  | fuel + 1, i =>
    if i + 3 < raw.length then
      if [0, 0, 255].isPrefixOf (raw.drop i) then
        if raw.getD (i + 3) 0 = 0 then scanFrames raw expResp fuel (i + 1)
        else if 7 + raw.getD (i + 3) 0 = 0 then []
        else if i + (7 + raw.getD (i + 3) 0) ≤ raw.length then
          emitForCandidate ((raw.drop i).take (7 + raw.getD (i + 3) 0)) expResp ++
            scanFrames raw expResp fuel (i + (7 + raw.getD (i + 3) 0))
        else []
      else scanFrames raw expResp fuel (i + 1)
    else []

/-- The end of a `0xD5` region: the first index at or after `j` holding
`0xD5`, or the end of the buffer. -/
def regionEnd (raw : List Nat) : Nat → Nat → Nat
  | 0, j => j
  | fuel + 1, j =>
    if j < raw.length then
      if raw.getD j 0 = 213 then j else regionEnd raw fuel (j + 1)
    else j

/-- `extract_d5_regions`: maximal contiguous regions starting at a byte
equal to `0xD5`. -/
def d5Regions (raw : List Nat) : Nat → Nat → List (List Nat)
  | 0, _ => []
  | fuel + 1, i =>
    if i < raw.length then
      if raw.getD i 0 = 213 then
        ((raw.drop i).take (regionEnd raw (raw.length + 1) (i + 1) - i)) ::
          d5Regions raw fuel (regionEnd raw (raw.length + 1) (i + 1))
      else d5Regions raw fuel (i + 1)
    else []

/-- First preamble position at or after a given absolute index, as
found by `windows(3).position` on the corresponding suffix. -/
def findPreAux : List Nat → Nat → Option Nat
  | [], _ => none
  | a :: rest, j =>
    if [0, 0, 255].isPrefixOf (a :: rest) then some j else findPreAux rest (j + 1)

def findPre (region : List Nat) (j : Nat) : Option Nat :=
  findPreAux (region.drop j) j

/-- The concatenated-frame walk inside one D5 region (fallback
heuristic 1).  The boolean is the Rust `extracted` flag: true as soon
as one candidate was processed (even when its decode failed). -/
def regionWalk (region : List Nat) (expResp : Nat) :
    Nat → Nat → List (List Nat) × Bool
  | 0, _ => ([], false)
  | fuel + 1, pos =>
    if pos + 3 < region.length then
      if 7 + region.getD (pos + 3) 0 = 0 ∨
          region.length < pos + (7 + region.getD (pos + 3) 0) then ([], false)
      else
        if pos + (7 + region.getD (pos + 3) 0) + 3 ≤ region.length ∧
            [0, 0, 255].isPrefixOf
              (region.drop (pos + (7 + region.getD (pos + 3) 0))) then
          (emitForCandidate ((region.drop pos).take (7 + region.getD (pos + 3) 0))
              expResp ++
            (regionWalk region expResp fuel
              (pos + (7 + region.getD (pos + 3) 0))).1, true)
        else
          match findPre region (pos + (7 + region.getD (pos + 3) 0)) with
          | some nxt =>
            (emitForCandidate ((region.drop pos).take (7 + region.getD (pos + 3) 0))
                expResp ++
              (regionWalk region expResp fuel nxt).1, true)
          | none =>
            (emitForCandidate ((region.drop pos).take (7 + region.getD (pos + 3) 0))
              expResp, true)
    else ([], false)

/-- Last-resort heuristic 3: the first suffix starting at index 3 or
later that wraps into a valid frame (applied to `region.drop 3`). -/
def lastResortAux : List Nat → List (List Nat)
  | [] => []
  | a :: rest =>
    match encodeOk (a :: rest) with
    | some f => [f]
    | none => lastResortAux rest

/-- The descending-length prefix search of `partition_unframed_targets`
for `targets ≥ 2`: try prefix lengths `len, len-1, …, 1`; a prefix is
viable when non-empty, starting with the expected response byte and
encodable, and the remainder partitions recursively. -/
def partitionGo (recurse : List Nat → Option (List (List Nat)))
    (rem : List Nat) (expResp : Nat) : Nat → Option (List (List Nat))
  | 0 => none
  | len + 1 =>
    if rem.take (len + 1) ≠ [] ∧ (rem.take (len + 1)).headD 0 = expResp ∧
        (encodeOk (rem.take (len + 1))).isSome then
      match recurse (rem.drop (len + 1)) with
      | some rest => some (rem.take (len + 1) :: rest)
      | none => partitionGo recurse rem expResp len
    else partitionGo recurse rem expResp len

/-- `partition_unframed_targets`: split the remainder into exactly
`targets` chunks, each starting with the expected response byte and
encodable as a frame; greedy longest-prefix with backtracking, leaving
at least one byte per remaining target. -/
def partitionTargets : Nat → List Nat → Nat → Option (List (List Nat))
  | 0, rem, _ => if rem = [] then some [] else none
  | 1, rem, expResp =>
    if rem ≠ [] ∧ rem.headD 0 = expResp ∧ (encodeOk rem).isSome then some [rem]
    else none
  | t + 2, rem, expResp =>
    partitionGo (fun r => partitionTargets (t + 1) r expResp) rem expResp
      (rem.length - (t + 1))

/-- Per-region fallback heuristics 2 and 3: InListPassiveTarget
partitioning (`D5 4B NbTg …`) with its response-code fallback, the
response-code search for other regions, and the last-resort suffix
scan. -/
def processRegionTail (region : List Nat) (expResp : Nat) : List (List Nat) :=
  if 3 ≤ region.length ∧ region.getD 1 0 = 75 then
    match
      (if 0 < region.getD 2 0 ∧ region.drop 3 ≠ [] then
        partitionTargets (region.getD 2 0) (region.drop 3) expResp
      else none) with
    | some parts => parts.filterMap encodeOk
    | none =>
      if 3 < region.length then
        match (region.drop 3).findIdx? (fun b => b == expResp) with
        | some pos =>
          (match encodeOk (region.drop (3 + pos)) with
          | some f => [f]
          | none => lastResortAux (region.drop 3))
        | none => lastResortAux (region.drop 3)
      else lastResortAux (region.drop 3)
  else
    match region.findIdx? (fun b => b == expResp) with
    | some pos =>
      (match encodeOk (region.drop pos) with
      | some f => [f]
      | none => lastResortAux (region.drop 3))
    | none => lastResortAux (region.drop 3)

/-- Processing of one D5 region: when it contains an explicit preamble
run the concatenated-frame walk; if that processed at least one
candidate (`extracted`), its output stands, otherwise fall through to
heuristics 2 and 3. -/
def processRegion (region : List Nat) (expResp : Nat) : List (List Nat) :=
  match findPre region 0 with
  | some p0 =>
    match regionWalk region expResp (region.length + 1) p0 with
    | (fs, true) => fs
    | (_, false) => processRegionTail region expResp
  | none => processRegionTail region expResp

/-- `extract_all_felica_frames_from_pn532_response`: primary preamble
scan; when it finds nothing, per-D5-region fallback heuristics. -/
def extractAllFelicaFrames (raw : List Nat) (expectedCmd : Nat) : List (List Nat) :=
  if scanFrames raw ((expectedCmd + 1) % 256) (raw.length + 1) 0 ≠ [] then
    scanFrames raw ((expectedCmd + 1) % 256) (raw.length + 1) 0
  else
    ((d5Regions raw (raw.length + 1) 0).map
      (fun region => processRegion region ((expectedCmd + 1) % 256))).flatten

/-- `decode_response_frame` (src/protocol/codec.rs): wire-frame decode
then response decode for the expected command. -/
def decodeResponseFrame (expectedCmd : Nat) (frame : List Nat) :
    Except Fault Response :=
  match Frame.decode frame with
  | .error e => .error (.err e)
  | .ok payload => Response.decode expectedCmd payload

/-- The 35-byte RCS956 capture of Concrete scenario 6 (an ACK frame, a
PN532 wire frame whose payload is `D5 4B 01` followed by an unframed
Polling response). -/
def captureRaw : List Nat :=
  [0x00, 0x00, 0xFF, 0x00, 0xFF, 0x00,
   0x00, 0x00, 0xFF, 0x16, 0xEA,
   0xD5, 0x4B, 0x01,
   0x01, 0x12, 0x01, 0x01, 0x01, 0x01, 0x12, 0xEC,
   0x23, 0xAA, 0x1F, 0x01, 0x36, 0x42, 0x82, 0x47,
   0x45, 0x9A, 0xFF,
   0xBE, 0x00]

/-- C7: feeding the captured 35-byte buffer to the extractor with
expected command 0x00 and decoding the returned frame with
`decode_response_frame` yields a Polling response with
IDm `01 12 01 01 01 01 12 EC`, PMm `23 AA 1F 01 36 42 82 47` and
SystemCode `0x9A45`. -/
theorem s330_capture_recovers_polling :
    ∃ f, f ∈ extractAllFelicaFrames captureRaw 0 ∧
      decodeResponseFrame 0 f =
        .ok (.Polling [0x01, 0x12, 0x01, 0x01, 0x01, 0x01, 0x12, 0xEC]
          [0x23, 0xAA, 0x1F, 0x01, 0x36, 0x42, 0x82, 0x47] 0x9A45) :=
  ⟨[0, 0, 255, 20, 236, 1, 1, 18, 1, 1, 1, 1, 18, 236, 35, 170, 31, 1, 54,
    66, 130, 71, 69, 154, 255, 222, 0], by decide, by rfl⟩

/-! ## Soundness of the extractor (C6): everything it emits is either a
candidate that `Frame::decode` accepted or the result of a successful
`Frame::encode`, hence decodable -/

theorem encodeOk_some (p f : List Nat) (h : encodeOk p = some f) :
    Frame.decode f = .ok p := by
  unfold encodeOk at h
  cases heq : Frame.encode p with
  | ok g =>
    rw [heq] at h
    simp at h
    subst h
    exact decode_encode p g heq
  | error er =>
    rw [heq] at h
    simp at h

theorem encodeOk_isSome (p : List Nat) (h : (encodeOk p).isSome) :
    ∃ fr, Frame.encode p = .ok fr := by
  unfold encodeOk at h
  cases heq : Frame.encode p with
  | ok g => exact ⟨g, rfl⟩
  | error er =>
    rw [heq] at h
    simp at h

theorem emitForCandidate_sound (c : List Nat) (e : Nat) :
    ∀ f ∈ emitForCandidate c e, ∃ p, Frame.decode f = .ok p := by
  intro f hf
  unfold emitForCandidate at hf
  cases hdec : Frame.decode c with
  | error er =>
    rw [hdec] at hf
    simp at hf
  | ok payload =>
    rw [hdec] at hf
    have hf : f ∈ (if payload.headD 0 = 213 then innerReframe payload e else [c]) := hf
    by_cases hd : payload.headD 0 = 213
    · rw [if_pos hd] at hf
      unfold innerReframe at hf
      cases hidx : (payload.drop 1).findIdx? (fun b => b == e) with
      | none =>
        rw [hidx] at hf
        simp at hf
      | some rel =>
        rw [hidx] at hf
        have hf : f ∈ (match Frame.encode (payload.drop (1 + rel)) with
          | .ok g => [g]
          | .error _ => ([] : List (List Nat))) := hf
        cases henc : Frame.encode (payload.drop (1 + rel)) with
        | ok g =>
          rw [henc] at hf
          simp at hf
          subst hf
          exact ⟨_, decode_encode _ _ henc⟩
        | error er =>
          rw [henc] at hf
          simp at hf
    · rw [if_neg hd] at hf
      simp at hf
      subst hf
      exact ⟨payload, hdec⟩

theorem scanFrames_sound (raw : List Nat) (e : Nat) :
    ∀ fuel i f, f ∈ scanFrames raw e fuel i → ∃ p, Frame.decode f = .ok p := by
  intro fuel
  induction fuel with
  | zero =>
    intro i f hf
    simp [scanFrames] at hf
  | succ m ih =>
    intro i f hf
    simp only [scanFrames] at hf
    split at hf
    · split at hf
      · split at hf
        · exact ih _ _ hf
        · split at hf
          · simp at hf
          · split at hf
            · rcases List.mem_append.mp hf with h | h
              · exact emitForCandidate_sound _ _ f h
              · exact ih _ _ h
            · simp at hf
      · exact ih _ _ hf
    · simp at hf

theorem regionWalk_sound (region : List Nat) (e : Nat) :
    ∀ fuel pos f, f ∈ (regionWalk region e fuel pos).1 →
      ∃ p, Frame.decode f = .ok p := by
  intro fuel
  induction fuel with
  | zero =>
    intro pos f hf
    simp [regionWalk] at hf
  | succ m ih =>
    intro pos f hf
    simp only [regionWalk] at hf
    split at hf
    · split at hf
      · simp at hf
      · split at hf
        · simp only [] at hf
          rcases List.mem_append.mp hf with h | h
          · exact emitForCandidate_sound _ _ f h
          · exact ih _ _ h
        · split at hf
          · simp only [] at hf
            rcases List.mem_append.mp hf with h | h
            · exact emitForCandidate_sound _ _ f h
            · exact ih _ _ h
          · simp only [] at hf
            exact emitForCandidate_sound _ _ f hf
    · simp at hf

theorem lastResortAux_sound (l : List Nat) :
    ∀ f ∈ lastResortAux l, ∃ p, Frame.decode f = .ok p := by
  induction l with
  | nil =>
    intro f hf
    simp [lastResortAux] at hf
  | cons a rest ih =>
    intro f hf
    simp only [lastResortAux] at hf
    cases heq : encodeOk (a :: rest) with
    | some g =>
      rw [heq] at hf
      simp at hf
      subst hf
      exact ⟨_, encodeOk_some _ _ heq⟩
    | none =>
      rw [heq] at hf
      exact ih f hf

theorem partitionGo_encodes (recurse : List Nat → Option (List (List Nat)))
    (hrec : ∀ r parts, recurse r = some parts →
      ∀ part ∈ parts, ∃ fr, Frame.encode part = .ok fr)
    (rem : List Nat) (e : Nat) :
    ∀ len parts, partitionGo recurse rem e len = some parts →
      ∀ part ∈ parts, ∃ fr, Frame.encode part = .ok fr := by
  intro len
  induction len with
  | zero =>
    intro parts hp
    simp [partitionGo] at hp
  | succ m ih =>
    intro parts hp part hmem
    simp only [partitionGo] at hp
    split at hp
    · rename_i hcond
      cases hr : recurse (rem.drop (m + 1)) with
      | some rest =>
        rw [hr] at hp
        simp at hp
        subst hp
        rcases List.mem_cons.mp hmem with h | h
        · subst h
          exact encodeOk_isSome _ hcond.2.2
        · exact hrec _ _ hr part h
      | none =>
        rw [hr] at hp
        exact ih parts hp part hmem
    · exact ih parts hp part hmem

theorem partitionTargets_encodes :
    ∀ t rem e parts, partitionTargets t rem e = some parts →
      ∀ part ∈ parts, ∃ fr, Frame.encode part = .ok fr := by
  intro t
  induction t using Nat.strong_induction_on with
  | _ t ih =>
    intro rem e parts hp part hmem
    match t with
    | 0 =>
      simp only [partitionTargets] at hp
      split at hp
      · simp at hp
        subst hp
        simp at hmem
      · simp at hp
    | 1 =>
      simp only [partitionTargets] at hp
      split at hp
      · rename_i hcond
        simp at hp
        subst hp
        simp at hmem
        subst hmem
        exact encodeOk_isSome _ hcond.2.2
      · simp at hp
    | s + 2 =>
      simp only [partitionTargets] at hp
      exact partitionGo_encodes _
        (fun r parts hps => ih (s + 1) (by omega) r e parts hps)
        rem e _ parts hp part hmem

theorem processRegionTail_sound (region : List Nat) (e : Nat) :
    ∀ f ∈ processRegionTail region e, ∃ p, Frame.decode f = .ok p := by
  intro f hf
  unfold processRegionTail at hf
  split at hf
  · split at hf
    · rename_i parts hparts
      rcases List.mem_filterMap.mp hf with ⟨part, _, hok⟩
      exact ⟨_, encodeOk_some _ _ hok⟩
    · split at hf
      · split at hf
        · rename_i pos hpos
          cases heq : encodeOk (region.drop (3 + pos)) with
          | some g =>
            rw [heq] at hf
            simp at hf
            subst hf
            exact ⟨_, encodeOk_some _ _ heq⟩
          | none =>
            rw [heq] at hf
            exact lastResortAux_sound _ f hf
        · exact lastResortAux_sound _ f hf
      · exact lastResortAux_sound _ f hf
  · split at hf
    · rename_i pos hpos
      cases heq : encodeOk (region.drop pos) with
      | some g =>
        rw [heq] at hf
        simp at hf
        subst hf
        exact ⟨_, encodeOk_some _ _ heq⟩
      | none =>
        rw [heq] at hf
        exact lastResortAux_sound _ f hf
    · exact lastResortAux_sound _ f hf

theorem processRegion_sound (region : List Nat) (e : Nat) :
    ∀ f ∈ processRegion region e, ∃ p, Frame.decode f = .ok p := by
  intro f hf
  unfold processRegion at hf
  split at hf
  · rename_i p0 hp0
    rcases hw : regionWalk region e (region.length + 1) p0 with ⟨fs, b⟩
    rw [hw] at hf
    cases b with
    | true =>
      simp at hf
      have : f ∈ (regionWalk region e (region.length + 1) p0).1 := by
        rw [hw]
        exact hf
      exact regionWalk_sound region e _ p0 f this
    | false =>
      simp at hf
      exact processRegionTail_sound region e f hf
  · exact processRegionTail_sound region e f hf

/-- C6: every frame returned by
`extract_all_felica_frames_from_pn532_response` is accepted by
`Frame::decode`, and every chunk of a partition returned by
`partition_unframed_targets` re-frames successfully with
`Frame::encode`. -/
theorem extractor_emits_decodable_frames (raw : List Nat) (cmd : Nat) :
    (∀ f ∈ extractAllFelicaFrames raw cmd, ∃ p, Frame.decode f = .ok p) ∧
    (∀ t rem e parts, partitionTargets t rem e = some parts →
      ∀ part ∈ parts, ∃ fr, Frame.encode part = .ok fr) := by
  refine ⟨?_, partitionTargets_encodes⟩
  intro f hf
  unfold extractAllFelicaFrames at hf
  split at hf
  · exact scanFrames_sound raw _ _ 0 f hf
  · rcases List.mem_flatten.mp hf with ⟨l, hl, hfl⟩
    rcases List.mem_map.mp hl with ⟨region, _, hregion⟩
    subst hregion
    exact processRegion_sound region _ f hfl

/-- Witness for C6 at the captured buffer: the frame the extractor
emits decodes, and a concrete two-target partition re-frames. -/
theorem extractor_emits_decodable_frames_witness :
    (∃ p, Frame.decode
      [0, 0, 255, 20, 236, 1, 1, 18, 1, 1, 1, 1, 18, 236, 35, 170, 31, 1, 54,
       66, 130, 71, 69, 154, 255, 222, 0] = .ok p) ∧
    (∃ fr, Frame.encode [1, 2, 3] = .ok fr) :=
  ⟨(extractor_emits_decodable_frames captureRaw 0).1
      [0, 0, 255, 20, 236, 1, 1, 18, 1, 1, 1, 1, 18, 236, 35, 170, 31, 1, 54,
       66, 130, 71, 69, 154, 255, 222, 0] (by decide),
   (extractor_emits_decodable_frames captureRaw 0).2 2 [1, 2, 3, 1, 9] 1
      [[1, 2, 3], [1, 9]] (by decide) [1, 2, 3] (by decide)⟩

end Libpafe
